import Mathlib

/-!
Verification of the behavioral specification of the origin CRUD scaffolding
library (packages orm, service, repository) against a shallow embedding of its
Go source.

Embedding overview:

1. Content merge (orm/model.go GetAllContentsWithUpdated, service/helpers.go
   mergeContents): Go builds a map keyed by language id, inserting the current
   contents and then the incoming contents, and collects the map values.  We
   model the Go map as an association list with overwrite-on-insert semantics
   (mapUpd): a Go map holds at most one entry per key, and the only map used
   here is built from the empty map via assignments, so replace-first-occurrence
   is an exact model.  Go map iteration order is unspecified; our model fixes
   first-insertion order, and every theorem about the merge is stated up to set
   membership, which is independent of the linearization chosen.

2. Reflective copier (service/helpers.go copyField / copyStruct) and content
   update (handleContentUpdate): modeled over a small dynamic value universe
   Val / Ty mirroring the reflect values the code manipulates (strings, uints,
   bools, pointers, slices, structs with named exported fields).  Structs in
   this universe carry their declared field lists directly; fields are assumed
   exported (CanSet) and field lookup is lookup by name among the declared
   fields, as no claim about the copier exercises embedded-field promotion.

3. Reflective parameter-shape generator (service engine:
   GenerateCreateParameters, GenerateUpdateParameters, GenerateFilterParameters
   and helpers generateInnerStruct, isBaseField, extractBaseEmbeddedFields):
   modeled over a shape universe GTy of reflect types carrying field name,
   Anonymous flag and type.  Struct tags (json/validate/url) are carried by the
   Go code into the generated shapes but no claim concerns them, so the
   embedding tracks names and types only.

4. Repository (repository/model_repository.go): each operation is modeled as a
   function from an outcome environment (which database calls fail) to the
   returned error and the trace of transaction-control events it performs,
   a direct transcription of the branching in the source.
-/

namespace Origin

/-! ## Go map with string keys, modeled as an association list

`mapUpd m k v` is the Go assignment `m[k] = v` on a map that holds at most one
entry per key; `mapGet` is map indexing. -/

def mapUpd {α : Type} : List (String × α) → String → α → List (String × α)
  | [], k, v => [(k, v)]
  | p :: r, k, v => if p.1 = k then (k, v) :: r else p :: mapUpd r k v

def mapGet {α : Type} : List (String × α) → String → Option α
  | [], _ => none
  | p :: r, k => if p.1 = k then some p.2 else mapGet r k

/-- Keys of the association-list map. -/
def mapKeys {α : Type} (m : List (String × α)) : List String :=
  m.map Prod.fst

/-- Insert every element of `l` into the map `m`, keyed by `key`, in order:
the loop `for _, content := range l { contentMap[content.GetLanguageID()] = content }`. -/
def insAll {α : Type} (key : α → String) (m : List (String × α)) (l : List α) :
    List (String × α) :=
  l.foldl (fun acc x => mapUpd acc (key x) x) m

/-- orm/model.go, GetAllContentsWithUpdated: merge two content collections by
language key.  The map is filled from `currentContents`, then overwritten from
`inputContents`, and the result collects the map values. -/
def getAllContentsWithUpdated {α : Type} (key : α → String) (currentContents inputContents : List α) :
    List α :=
  (insAll key (insAll key [] currentContents) inputContents).map Prod.snd

/-- service/helpers.go, mergeContents: the same merge, performed with
reflection over the model field and keyed by getLanguageID.  At the level of
the embedding the key function is a parameter, so the algorithm coincides with
GetAllContentsWithUpdated. -/
def mergeContents {α : Type} (key : α → String) (existing newContents : List α) : List α :=
  (insAll key (insAll key [] existing) newContents).map Prod.snd

/-! ## Dynamic value universe for the reflective copier

Types of the universe: Go strings, uints, bools, pointers, slices and structs.
`FieldTys` is the field list of a struct type (name and type; generated
parameter structs have no embedded fields, and the copier never consults the
Anonymous flag, so it is not carried here). -/

mutual
inductive Ty where
  | tstr : Ty
  | tnat : Ty
  | tbool : Ty
  | tptr (t : Ty) : Ty
  | tslice (t : Ty) : Ty
  | tstruct (name : String) (fields : FieldTys) : Ty
inductive FieldTys where
  | fnil : FieldTys
  | fcons (name : String) (t : Ty) (rest : FieldTys) : FieldTys
end

/-- Values of the universe.  A non-nil pointer `vptr t v` points at `v` and has
type `tptr t`; a nil pointer `vnilptr t` has type `tptr t`.  A struct value
carries the name and declared field types of its struct type together with its
named field values. -/
inductive Val where
  | vstr (s : String) : Val
  | vnat (n : Nat) : Val
  | vbool (b : Bool) : Val
  | vnilptr (t : Ty) : Val
  | vptr (t : Ty) (v : Val) : Val
  | vslice (t : Ty) (elems : List Val) : Val
  | vstruct (name : String) (ftys : FieldTys) (fields : List (String × Val)) : Val

/-- reflect.Value.Type of a universe value. -/
def typeOf : Val → Ty
  | Val.vstr _ => Ty.tstr
  | Val.vnat _ => Ty.tnat
  | Val.vbool _ => Ty.tbool
  | Val.vnilptr t => Ty.tptr t
  | Val.vptr t _ => Ty.tptr t
  | Val.vslice t _ => Ty.tslice t
  | Val.vstruct n fts _ => Ty.tstruct n fts

/- Type equality, the meaning of reflect AssignableTo inside the universe
(all universe types are distinct named/primitive types, so Go assignability
between them is exactly type identity). -/
mutual
def Ty.beq : Ty → Ty → Bool
  | Ty.tstr, Ty.tstr => true
  | Ty.tnat, Ty.tnat => true
  | Ty.tbool, Ty.tbool => true
  | Ty.tptr a, Ty.tptr b => Ty.beq a b
  | Ty.tslice a, Ty.tslice b => Ty.beq a b
  | Ty.tstruct n a, Ty.tstruct m b => n == m && FieldTys.beq a b
  | _, _ => false
def FieldTys.beq : FieldTys → FieldTys → Bool
  | FieldTys.fnil, FieldTys.fnil => true
  | FieldTys.fcons n t r, FieldTys.fcons m u s => n == m && Ty.beq t u && FieldTys.beq r s
  | _, _ => false
end

/-- reflect AssignableTo within the universe. -/
def assignable (src dst : Ty) : Bool := Ty.beq src dst

/-- reflect ConvertibleTo within the universe: identical types, plus Go's
integer-to-string conversion (uint is convertible to string). -/
def convertible (src dst : Ty) : Bool :=
  Ty.beq src dst ||
    (match src, dst with
     | Ty.tnat, Ty.tstr => true
     | _, _ => false)

/-- Go string(u) for an unsigned integer: the UTF-8 string of the code point,
or the replacement character for an invalid code point. -/
def runeString (n : Nat) : String :=
  if h : n.isValidChar then String.singleton (Char.ofNatAux n h) else "�"

/-- reflect.Value.Convert for the one non-identity conversion of the universe. -/
def convertVal (v : Val) (dst : Ty) : Val :=
  match v, dst with
  | Val.vnat n, Ty.tstr => Val.vstr (runeString n)
  | _, _ => v

/- The zero value reflect.New(t).Elem() of a universe type. -/
mutual
def zeroVal : Ty → Val
  | Ty.tstr => Val.vstr ""
  | Ty.tnat => Val.vnat 0
  | Ty.tbool => Val.vbool false
  | Ty.tptr t => Val.vnilptr t
  | Ty.tslice t => Val.vslice t []
  | Ty.tstruct n fts => Val.vstruct n fts (zeroFields fts)
def zeroFields : FieldTys → List (String × Val)
  | FieldTys.fnil => []
  | FieldTys.fcons n t r => (n, zeroVal t) :: zeroFields r
end

/-- Copier errors: the information carried by the fmt.Errorf strings of
service/helpers.go.  typeMismatch names the source and destination types;
fieldErr wraps an element error with the field name; notStructs is the
"both values must be structs" failure of copyStruct. -/
inductive Err where
  | typeMismatch (src dst : Ty) : Err
  | fieldErr (name : String) (e : Err) : Err
  | notStructs : Err

/-- The source-dereference loop of copyField:
`for src.Kind() == reflect.Ptr && !src.IsNil() { src = src.Elem() }`.
A chain of non-nil pointers is followed to its target; a nil pointer is
returned as is. -/
def derefSrc : Val → Val
  | Val.vptr _ v => derefSrc v
  | v => v

/-- The non-pointer type at the end of a pointer type chain. -/
def tyCore : Ty → Ty
  | Ty.tptr t => tyCore t
  | t => t

/-- Rebuild the pointer chain that the destination loop of copyField allocates
when it starts from a nil pointer of pointee type `t`: every intermediate
pointer is freshly allocated and the innermost cell holds `core`. -/
def chainWrap : Ty → Val → Val
  | Ty.tptr u, core => Val.vptr u (chainWrap u core)
  | _, core => core

/-- The assignment step of copyField once both sides are non-pointers:
assign if types match, convert if convertible, otherwise the type-mismatch
error, leaving the destination unchanged. -/
def assignStep (dst s : Val) : Val × Option Err :=
  if assignable (typeOf s) (typeOf dst) then (s, none)
  else if convertible (typeOf s) (typeOf dst) then (convertVal s (typeOf dst), none)
  else (dst, some (Err.typeMismatch (typeOf s) (typeOf dst)))

/-- The destination loop plus assignment of copyField, acting on an already
dereferenced source `s`.  A non-nil destination pointer is followed; a nil
destination pointer causes the whole remaining chain to be allocated
(`dst.Set(reflect.New(dst.Type().Elem()))` repeatedly) with the zero core at
the end, and the assignment is performed on the allocated core.  The returned
value is the destination after the call, including the allocations that happen
before a failing assignment. -/
def copyCore : Val → Val → Val × Option Err
  | Val.vptr t inner, s =>
      let r := copyCore inner s
      (Val.vptr t r.1, r.2)
  | Val.vnilptr t, s =>
      let r := assignStep (zeroVal (tyCore t)) s
      (Val.vptr t (chainWrap t r.1), r.2)
  | d, s => assignStep d s

/-- service/helpers.go, copyField: dereference the source pointer chain while
non-nil, allocate the destination pointer chain, then assign or convert.
Returns the destination value after the call and the error, if any. -/
def copyField (dst src : Val) : Val × Option Err :=
  copyCore dst (derefSrc src)

/-- dst.FieldByName for the direct (non-embedded) fields of the universe. -/
def fieldGet : List (String × Val) → String → Option Val
  | [], _ => none
  | p :: r, n => if p.1 = n then some p.2 else fieldGet r n

/-- Writing through the reflect.Value of field `n`: replace its value. -/
def fieldSet : List (String × Val) → String → Val → List (String × Val)
  | [], _, _ => []
  | p :: r, n, v => if p.1 = n then (n, v) :: r else p :: fieldSet r n v

/-- The loop of copyStruct over the source fields, threading the destination
fields: for each source field that the destination also declares, copyField is
applied; the first error aborts the loop, wrapped with the field name, and the
destination keeps whatever mutations have happened so far. -/
def copyFieldsLoop : List (String × Val) → List (String × Val) →
    List (String × Val) × Option Err
  | dfs, [] => (dfs, none)
  | dfs, (n, sv) :: rest =>
      match fieldGet dfs n with
      | none => copyFieldsLoop dfs rest
      | some dv =>
          let r := copyField dv sv
          let dfs' := fieldSet dfs n r.1
          match r.2 with
          | some e => (dfs', some (Err.fieldErr n e))
          | none => copyFieldsLoop dfs' rest

/-- service/helpers.go, copyStruct: both values must be structs; then copy
field by field, matched by name. -/
def copyStruct (dst src : Val) : Val × Option Err :=
  match dst, src with
  | Val.vstruct dn dftys dfs, Val.vstruct _ _ sfs =>
      let r := copyFieldsLoop dfs sfs
      (Val.vstruct dn dftys r.1, r.2)
  | d, _ => (d, some Err.notStructs)

/-- service/helpers.go, getLanguageID on a universe value: the structs of the
universe carry no methods, so the function falls back to the LanguageID field,
returning its string and the empty string when the field is absent (or, in
this universe, not a string). -/
def getLanguageID : Val → String
  | Val.vstruct _ _ fs =>
      match fieldGet fs "LanguageID" with
      | some (Val.vstr s) => s
      | _ => ""
  | _ => ""

/-! ## handleContentUpdate (service/helpers.go) -/

/-- One incoming element of handleContentUpdate: a fresh zero instance of the
slice element type is allocated and the update item is copied into it by
copyStruct. -/
def copyItem (elemTy : Ty) (updateItem : Val) : Val × Option Err :=
  copyStruct (zeroVal elemTy) updateItem

/-- Step 2 of handleContentUpdate for one update item: on copy success the map
entry for the item's language id is overwritten with the fresh copy; on copy
failure the map is left as it was (the error is not propagated). -/
def hcuStep (elemTy : Ty) (m : List (String × Val)) (updateItem : Val) :
    List (String × Val) :=
  let r := copyItem elemTy updateItem
  match r.2 with
  | none => mapUpd m (getLanguageID updateItem) r.1
  | some _ => m

/-- service/helpers.go, handleContentUpdate: populate a map with the existing
content elements keyed by language id, process the update items, rebuild the
slice from the map.  The function always returns a nil error. -/
def handleContentUpdate (elemTy : Ty) (existing updates : List Val) :
    List Val × Option Err :=
  ((updates.foldl (hcuStep elemTy) (insAll getLanguageID [] existing)).map Prod.snd,
    none)

/-! ## UpdateModelFromUpdateParameters (service engine) over the universe -/

/-- The loop of UpdateModelFromUpdateParameters over the update-parameter
fields, threading the model fields.  Nil pointer parameters are skipped;
parameters with no matching model field are skipped; a slice-valued model
field is merged by handleContentUpdate when named Contents and silently
ignored otherwise; any other field is copied with copyField (through the
parameter pointer when there is one), the first error aborting the loop. -/
def umLoop : List (String × Val) → List (String × Val) →
    List (String × Val) × Option Err
  | mfs, [] => (mfs, none)
  | mfs, (n, pv) :: rest =>
      match pv with
      | Val.vnilptr _ => umLoop mfs rest
      | _ =>
        match fieldGet mfs n with
        | none => umLoop mfs rest
        | some mv =>
          match mv with
          | Val.vslice et elems =>
              let sliceValue := match pv with
                                | Val.vptr _ inner => inner
                                | _ => pv
              if n = "Contents" then
                match sliceValue with
                | Val.vslice _ updElems =>
                    let r := handleContentUpdate et elems updElems
                    match r.2 with
                    | some e => (mfs, some (Err.fieldErr n e))
                    | none => umLoop (fieldSet mfs n (Val.vslice et r.1)) rest
                | _ => umLoop mfs rest
              else umLoop mfs rest
          | _ =>
              let src := match pv with
                         | Val.vptr _ inner => inner
                         | _ => pv
              let r := copyField mv src
              match r.2 with
              | some e => (fieldSet mfs n r.1, some (Err.fieldErr n e))
              | none => umLoop (fieldSet mfs n r.1) rest

/-- service engine, UpdateModelFromUpdateParameters: dereference the
parameters pointer, then run the field loop on the model struct. -/
def updateModelFromUpdateParameters (model params : Val) : Val × Option Err :=
  match model, params with
  | Val.vstruct mn mftys mfs, Val.vstruct _ _ pfs =>
      let r := umLoop mfs pfs
      (Val.vstruct mn mftys r.1, r.2)
  | Val.vstruct mn mftys mfs, Val.vptr _ (Val.vstruct _ _ pfs) =>
      let r := umLoop mfs pfs
      (Val.vstruct mn mftys r.1, r.2)
  | m, _ => (m, none)

/-! ## Reflective parameter-shape generator (service engine)

Shape universe: a reflect type together with, for struct types, the declared
field list.  Each declared field carries its name, its Anonymous flag and its
type.  Struct tags are not carried: the generator copies json/validate tags
into the generated shapes and writes url tags for filter shapes, but no claim
concerns tags. -/

inductive GTy where
  | prim (name : String) : GTy
  | gptr (t : GTy) : GTy
  | gslice (t : GTy) : GTy
  | gstruct (name : String) (fields : List (String × Bool × GTy)) : GTy

/-- A field of a generated parameter struct (generated fields always have
Anonymous = false). -/
structure OField where
  name : String
  ty : GTy

/-- reflect.Type.Name, as the generator consults it: named for primitives and
structs, empty for pointer and slice types. -/
def gTyName : GTy → String
  | GTy.prim n => n
  | GTy.gptr _ => ""
  | GTy.gslice _ => ""
  | GTy.gstruct n _ => n

/-- Whether `pat` occurs at the head of `s`. -/
def leadsWith : List Char → List Char → Bool
  | _, [] => true
  | [], _ :: _ => false
  | a :: s, b :: t => a == b && leadsWith s t

/-- Whether `pat` occurs contiguously inside `s`. -/
def containsSeq : List Char → List Char → Bool
  | [], pat => pat.isEmpty
  | c :: rest, pat => leadsWith (c :: rest) pat || containsSeq rest pat

/-- Go strings.Contains. -/
def strContains (s pat : String) : Bool :=
  containsSeq s.toList pat.toList

/-- Go strings.HasSuffix (the field names involved are ASCII, so the byte
suffix test coincides with the character suffix test). -/
def strEndsWith (s pat : String) : Bool :=
  leadsWith s.toList.reverse pat.toList.reverse

/-- service engine, isBaseField: a field is a base field when its name
contains one of the base type names Model, ContentModel, or its type is
named exactly one of them. -/
def isBaseField (n : String) (t : GTy) : Bool :=
  ["Model", "ContentModel"].any (fun base => strContains n base || gTyName t == base)

/-- service engine, extractBaseEmbeddedFields, field loop: from the fields of
an embedded base struct, re-include only a field named LanguageID, at most
once across the whole generation (the added set is threaded through). -/
def extractLoop : List (String × Bool × GTy) → List String →
    List OField × List String
  | [], added => ([], added)
  | (n, _, t) :: rest, added =>
      if n = "LanguageID" ∧ n ∉ added then
        let r := extractLoop rest (n :: added)
        (⟨n, t⟩ :: r.1, r.2)
      else extractLoop rest added

/-- service engine, extractBaseEmbeddedFields. -/
def extractBaseEmbeddedFields (t : GTy) (added : List String) :
    List OField × List String :=
  match t with
  | GTy.gstruct _ fs => extractLoop fs added
  | _ => ([], added)

/-- Convert generated output fields back into a declared field list (generated
fields are never anonymous). -/
def ofOFields : List OField → List (String × Bool × GTy)
  | [] => []
  | f :: r => (f.name, false, f.ty) :: ofOFields r

/-- service engine, generateInnerStruct, field loop: anonymous base fields
contribute only their LanguageID via extractBaseEmbeddedFields; fields already
added are skipped; when foreign keys are excluded (includeForeignKeys, always
true at the call sites) fields with the ID suffix are skipped; every other
field is added with its declared type and marked as added. -/
def innerLoop : List (String × Bool × GTy) → List String → Bool →
    List OField × List String
  | [], added, _ => ([], added)
  | (n, anon, t) :: rest, added, fk =>
      if anon = true ∧ isBaseField n t = true then
        let e := extractBaseEmbeddedFields t added
        let r := innerLoop rest e.2 fk
        (e.1 ++ r.1, r.2)
      else if n ∈ added then innerLoop rest added fk
      else if fk = true ∧ strEndsWith n "ID" = true then innerLoop rest added fk
      else
        let r := innerLoop rest (n :: added) fk
        (⟨n, t⟩ :: r.1, r.2)

/-- service engine, generateInnerStruct: package the loop output as an
anonymous struct type (reflect.StructOf yields an unnamed type). -/
def generateInnerStruct (t : GTy) (added : List String) (includeForeignKeys : Bool) :
    GTy × List String :=
  match t with
  | GTy.gstruct _ fs =>
      let r := innerLoop fs added includeForeignKeys
      (GTy.gstruct "" (ofOFields r.1), r.2)
  | _ => (GTy.gstruct "" [], added)

/-- service engine, GenerateCreateParameters, field loop.  Anonymous or base
fields are skipped, except that an anonymous base field contributes its
LanguageID via extractBaseEmbeddedFields.  A slice-of-struct field becomes a
slice of the generated inner struct; a slice of non-structs is dropped.  Every
other field is added with its declared type. -/
def createLoop : List (String × Bool × GTy) → List String →
    List OField × List String
  | [], added => ([], added)
  | (n, anon, t) :: rest, added =>
      if anon = true ∨ isBaseField n t = true then
        if anon = true ∧ isBaseField n t = true then
          let e := extractBaseEmbeddedFields t added
          let r := createLoop rest e.2
          (e.1 ++ r.1, r.2)
        else createLoop rest added
      else
        match t with
        | GTy.gslice (GTy.gstruct _sn sfs) =>
            let inn := innerLoop sfs added true
            let r := createLoop rest inn.2
            (⟨n, GTy.gslice (GTy.gstruct "" (ofOFields inn.1))⟩ :: r.1, r.2)
        | GTy.gslice _ => createLoop rest added
        | _ =>
            let r := createLoop rest added
            (⟨n, t⟩ :: r.1, r.2)

/-- service engine, GenerateUpdateParameters, field loop: identical to the
create loop except that the slice field type and every plain field type are
wrapped in a pointer.  The fields re-included by extractBaseEmbeddedFields and
the fields of the generated inner struct are not wrapped. -/
def updateLoop : List (String × Bool × GTy) → List String →
    List OField × List String
  | [], added => ([], added)
  | (n, anon, t) :: rest, added =>
      if anon = true ∨ isBaseField n t = true then
        if anon = true ∧ isBaseField n t = true then
          let e := extractBaseEmbeddedFields t added
          let r := updateLoop rest e.2
          (e.1 ++ r.1, r.2)
        else updateLoop rest added
      else
        match t with
        | GTy.gslice (GTy.gstruct _sn sfs) =>
            let inn := innerLoop sfs added true
            let r := updateLoop rest inn.2
            (⟨n, GTy.gptr (GTy.gslice (GTy.gstruct "" (ofOFields inn.1)))⟩ :: r.1, r.2)
        | GTy.gslice _ => updateLoop rest added
        | _ =>
            let r := updateLoop rest added
            (⟨n, GTy.gptr t⟩ :: r.1, r.2)

/-- Whether a struct type satisfies the content capability, orm.IsContentModel:
in this repository a type implements IContentModel exactly when it embeds the
orm.ContentModel base (whose value-receiver GetLanguageID method is promoted),
so the embedding checks for an anonymous field of type named ContentModel. -/
def embedsContentModel : List (String × Bool × GTy) → Bool
  | [] => false
  | (_, anon, t) :: rest => (anon && gTyName t == "ContentModel") || embedsContentModel rest

/-- orm.IsContentModel on a universe type. -/
def isContentModelType : GTy → Bool
  | GTy.gstruct _ fs => embedsContentModel fs
  | _ => false

/-- service engine, GenerateFilterParameters, flattening loop over the fields
of a content slice element type: fields with the ID suffix are dropped;
anonymous or base fields would contribute only a field named exactly
LanguageID; any other field not yet added is hoisted with a pointer type. -/
def flattenLoop : List (String × Bool × GTy) → List String →
    List OField × List String
  | [], added => ([], added)
  | (n, anon, t) :: rest, added =>
      if strEndsWith n "ID" = true then flattenLoop rest added
      else if anon = true ∨ isBaseField n t = true then
        if n = "LanguageID" ∧ n ∉ added then
          let r := flattenLoop rest (n :: added)
          (⟨n, GTy.gptr t⟩ :: r.1, r.2)
        else flattenLoop rest added
      else if n ∉ added then
        let r := flattenLoop rest (n :: added)
        (⟨n, GTy.gptr t⟩ :: r.1, r.2)
      else flattenLoop rest added

/-- Whether a field type is a slice of structs satisfying the content
capability, the condition under which GenerateFilterParameters flattens. -/
def shouldFlatten : GTy → Bool
  | GTy.gslice (GTy.gstruct sn sfs) => isContentModelType (GTy.gstruct sn sfs)
  | _ => false

/-- Declared fields of the element type of a slice-of-struct type. -/
def sliceStructFields : GTy → List (String × Bool × GTy)
  | GTy.gslice (GTy.gstruct _ sfs) => sfs
  | _ => []

/-- service engine, GenerateFilterParameters, field loop: anonymous or base
fields are skipped outright; a content slice is flattened; every other field
not yet added is added with a pointer type. -/
def filterLoop : List (String × Bool × GTy) → List String →
    List OField × List String
  | [], added => ([], added)
  | (n, anon, t) :: rest, added =>
      if anon = true ∨ isBaseField n t = true then filterLoop rest added
      else if shouldFlatten t = true then
        let fl := flattenLoop (sliceStructFields t) added
        let r := filterLoop rest fl.2
        (fl.1 ++ r.1, r.2)
      else if n ∈ added then filterLoop rest added
      else
        let r := filterLoop rest (n :: added)
        (⟨n, GTy.gptr t⟩ :: r.1, r.2)

/-- One-level pointer dereference of the model type, as each generator does
before walking the fields. -/
def derefGTy : GTy → GTy
  | GTy.gptr t => t
  | t => t

/-- service engine, GenerateCreateParameters (a non-struct model panics in
reflect; no claim exercises it, the embedding returns the empty shape). -/
def generateCreateParameters (model : GTy) : List OField :=
  match derefGTy model with
  | GTy.gstruct _ fs => (createLoop fs []).1
  | _ => []

/-- service engine, GenerateUpdateParameters. -/
def generateUpdateParameters (model : GTy) : List OField :=
  match derefGTy model with
  | GTy.gstruct _ fs => (updateLoop fs []).1
  | _ => []

/-- service engine, GenerateFilterParameters. -/
def generateFilterParameters (model : GTy) : List OField :=
  match derefGTy model with
  | GTy.gstruct _ fs => (filterLoop fs []).1
  | _ => []

/-! ## Concrete model shapes from the example application (README / main.go) -/

/-- orm.Model: ID, CreatedAt, UpdatedAt. -/
def gModelTy : GTy :=
  GTy.gstruct "Model"
    [("ID", false, GTy.prim "uint"),
     ("CreatedAt", false, GTy.prim "Time"),
     ("UpdatedAt", false, GTy.prim "Time")]

/-- orm.Language: ID, Title, CreatedAt, UpdatedAt. -/
def gLanguageTy : GTy :=
  GTy.gstruct "Language"
    [("ID", false, GTy.prim "string"),
     ("Title", false, GTy.prim "string"),
     ("CreatedAt", false, GTy.prim "Time"),
     ("UpdatedAt", false, GTy.prim "Time")]

/-- orm.ContentModel: LanguageID, Language, CreatedAt, UpdatedAt. -/
def gContentModelTy : GTy :=
  GTy.gstruct "ContentModel"
    [("LanguageID", false, GTy.prim "string"),
     ("Language", false, gLanguageTy),
     ("CreatedAt", false, GTy.prim "Time"),
     ("UpdatedAt", false, GTy.prim "Time")]

/-- BlogContent: embeds orm.ContentModel, then Content and the BlogID foreign
key. -/
def gBlogContentTy : GTy :=
  GTy.gstruct "BlogContent"
    [("ContentModel", true, gContentModelTy),
     ("Content", false, GTy.prim "string"),
     ("BlogID", false, GTy.prim "uint")]

/-- Blog: embeds orm.Model, then Contents, Owner, IsPublished. -/
def gBlogTy : GTy :=
  GTy.gstruct "Blog"
    [("Model", true, gModelTy),
     ("Contents", false, GTy.gslice gBlogContentTy),
     ("Owner", false, GTy.prim "string"),
     ("IsPublished", false, GTy.prim "bool")]

/-! ## Repository (repository/model_repository.go)

Each operation is a function from an outcome environment, which says whether
each database call fails, to the returned error and the ordered trace of
transaction events.  Logging is omitted; the conditional Preload of the
Contents association modifies the query but performs no transaction control,
so it does not appear in the trace. -/

inductive TxEvent where
  | beginTx : TxEvent
  | dbOp1 : TxEvent
  | dbOp2 : TxEvent
  | commitTx : TxEvent
  | rollbackTx : TxEvent
deriving DecidableEq

/-- Which of the calls made inside one repository operation fail: Begin, the
first database operation (First/Find/Create/Save), the second database
operation (the Delete of fetch-then-delete), Commit, Rollback. -/
structure TxOutcome (E : Type) where
  beginErr : Option E
  op1Err : Option E
  op2Err : Option E
  commitErr : Option E
  rollbackErr : Option E

/-- repository GetByID: begin, optional preload, First.  Errors are returned
directly; neither Commit nor Rollback is ever called. -/
def repoGetByID {E : Type} (oc : TxOutcome E) : Option E × List TxEvent :=
  match oc.beginErr with
  | some e => (some e, [TxEvent.beginTx])
  | none =>
    match oc.op1Err with
    | some e => (some e, [TxEvent.beginTx, TxEvent.dbOp1])
    | none => (none, [TxEvent.beginTx, TxEvent.dbOp1])

/-- repository GetAll: begin, optional preload, scopes, Find.  Errors are
returned directly; neither Commit nor Rollback is ever called. -/
def repoGetAll {E : Type} (oc : TxOutcome E) : Option E × List TxEvent :=
  match oc.beginErr with
  | some e => (some e, [TxEvent.beginTx])
  | none =>
    match oc.op1Err with
    | some e => (some e, [TxEvent.beginTx, TxEvent.dbOp1])
    | none => (none, [TxEvent.beginTx, TxEvent.dbOp1])

/-- repository Create: begin, Create, rollback on failure (a failing rollback
replaces the error), commit otherwise (a failing commit is returned). -/
def repoCreate {E : Type} (oc : TxOutcome E) : Option E × List TxEvent :=
  match oc.beginErr with
  | some e => (some e, [TxEvent.beginTx])
  | none =>
    match oc.op1Err with
    | some e =>
        match oc.rollbackErr with
        | some r => (some r, [TxEvent.beginTx, TxEvent.dbOp1, TxEvent.rollbackTx])
        | none => (some e, [TxEvent.beginTx, TxEvent.dbOp1, TxEvent.rollbackTx])
    | none =>
        match oc.commitErr with
        | some c => (some c, [TxEvent.beginTx, TxEvent.dbOp1, TxEvent.commitTx])
        | none => (none, [TxEvent.beginTx, TxEvent.dbOp1, TxEvent.commitTx])

/-- repository Update: begin, Save, rollback on failure (a failing rollback
replaces the error), commit otherwise; same transaction skeleton as Create. -/
def repoUpdate {E : Type} (oc : TxOutcome E) : Option E × List TxEvent :=
  match oc.beginErr with
  | some e => (some e, [TxEvent.beginTx])
  | none =>
    match oc.op1Err with
    | some e =>
        match oc.rollbackErr with
        | some r => (some r, [TxEvent.beginTx, TxEvent.dbOp1, TxEvent.rollbackTx])
        | none => (some e, [TxEvent.beginTx, TxEvent.dbOp1, TxEvent.rollbackTx])
    | none =>
        match oc.commitErr with
        | some c => (some c, [TxEvent.beginTx, TxEvent.dbOp1, TxEvent.commitTx])
        | none => (none, [TxEvent.beginTx, TxEvent.dbOp1, TxEvent.commitTx])

/-- repository Delete: begin, First (rollback on failure), Delete (rollback on
failure), commit. -/
def repoDelete {E : Type} (oc : TxOutcome E) : Option E × List TxEvent :=
  match oc.beginErr with
  | some e => (some e, [TxEvent.beginTx])
  | none =>
    match oc.op1Err with
    | some e =>
        match oc.rollbackErr with
        | some r => (some r, [TxEvent.beginTx, TxEvent.dbOp1, TxEvent.rollbackTx])
        | none => (some e, [TxEvent.beginTx, TxEvent.dbOp1, TxEvent.rollbackTx])
    | none =>
      match oc.op2Err with
      | some e =>
          match oc.rollbackErr with
          | some r =>
              (some r, [TxEvent.beginTx, TxEvent.dbOp1, TxEvent.dbOp2, TxEvent.rollbackTx])
          | none =>
              (some e, [TxEvent.beginTx, TxEvent.dbOp1, TxEvent.dbOp2, TxEvent.rollbackTx])
      | none =>
          match oc.commitErr with
          | some c =>
              (some c, [TxEvent.beginTx, TxEvent.dbOp1, TxEvent.dbOp2, TxEvent.commitTx])
          | none =>
              (none, [TxEvent.beginTx, TxEvent.dbOp1, TxEvent.dbOp2, TxEvent.commitTx])

/-! ## The Blog scenario (README / main.go), concretely typed

The generic engine instantiated at the Blog model of the example application.
Times are modeled as naturals; the reflective copies are specialized at the
concrete types exactly as reflect resolves them (FieldByName on a BlogContent
finds the promoted ContentModel.LanguageID field). -/

structure Model where
  id : Nat
  createdAt : Nat
  updatedAt : Nat
deriving DecidableEq

structure Language where
  id : String
  title : String
  createdAt : Nat
  updatedAt : Nat
deriving DecidableEq

structure ContentModel where
  languageID : String
  language : Language
  createdAt : Nat
  updatedAt : Nat
deriving DecidableEq

structure BlogContent where
  contentModel : ContentModel
  content : String
  blogID : Nat
deriving DecidableEq

structure Blog where
  model : Model
  contents : List BlogContent
  owner : String
  isPublished : Bool
deriving DecidableEq

/-- The promoted GetLanguageID method of a BlogContent. -/
def BlogContent.langID (c : BlogContent) : String :=
  c.contentModel.languageID

/-- One element of the generated update shape for the Contents field:
struct of LanguageID and Content (BlogID is dropped as a foreign key). -/
structure BlogContentUpdateItem where
  languageID : String
  content : String
deriving DecidableEq

/-- The generated update shape for Blog: every top-level field optional. -/
structure BlogUpdateParams where
  contents : Option (List BlogContentUpdateItem)
  owner : Option String
  isPublished : Option Bool
deriving DecidableEq

/-- handleContentUpdate's per-item copy at the Blog instantiation:
newItem := reflect.New(BlogContent).Elem(); copyStruct(newItem, updateItem).
FieldByName resolves LanguageID to the promoted ContentModel.LanguageID and
Content to the direct field; both copies are string-to-string assignments, so
the copy always succeeds and every other field keeps its zero value. -/
def copyBlogContentItem (u : BlogContentUpdateItem) : BlogContent :=
  { contentModel :=
      { languageID := u.languageID, language := ⟨"", "", 0, 0⟩,
        createdAt := 0, updatedAt := 0 },
    content := u.content,
    blogID := 0 }

/-- service/helpers.go handleContentUpdate at the Blog instantiation: map the
existing contents by language id, overwrite with the freshly copied update
items (getLanguageID of an update item reads its LanguageID field), rebuild
the slice. -/
def handleContentUpdateBlog (existing : List BlogContent)
    (updates : List BlogContentUpdateItem) : List BlogContent :=
  (updates.foldl (fun m u => mapUpd m u.languageID (copyBlogContentItem u))
    (insAll BlogContent.langID [] existing)).map Prod.snd

/-- UpdateModelFromUpdateParameters at the Blog instantiation: parameters are
walked in declared order (Contents, Owner, IsPublished); nil pointers are
skipped; the Contents slice is merged by handleContentUpdate; Owner and
IsPublished are copied through their pointers. -/
def updateBlogFromUpdateParameters (b : Blog) (p : BlogUpdateParams) : Blog :=
  let b1 := match p.contents with
            | none => b
            | some us => { b with contents := handleContentUpdateBlog b.contents us }
  let b2 := match p.owner with
            | none => b1
            | some s => { b1 with owner := s }
  match p.isPublished with
  | none => b2
  | some v => { b2 with isPublished := v }

/-! ## Observation helpers used by the theorem statements -/

/-- The non-pointer type at the end of the destination's pointer chain: the
type against which copyField's assignment ultimately checks. -/
def valCoreTy : Val → Ty
  | Val.vptr _ v => valCoreTy v
  | Val.vnilptr t => tyCore t
  | v => typeOf v

/-- Whether a destination value contains no nil pointer along its pointer
chain (so copyField performs no allocation on it). -/
def nilFree : Val → Bool
  | Val.vptr _ v => nilFree v
  | Val.vnilptr _ => false
  | _ => true

/-- Length of the pointer chain of a value (induction measure). -/
def ptrDepth : Val → Nat
  | Val.vptr _ v => ptrDepth v + 1
  | _ => 0

/-- Length of the pointer chain of a type (induction measure). -/
def tyPtrDepth : Ty → Nat
  | Ty.tptr t => tyPtrDepth t + 1
  | _ => 0

/-- Whether a generated field type is a pointer type. -/
def isPtrG : GTy → Bool
  | GTy.gptr _ => true
  | _ => false

/-- Claim-side check, following the specification text of the update shape:
every field is optional (a nilable pointer type), including the fields of any
nested content shape.  A top-level field passes when its type is a pointer
and, if it is a pointer to a slice of a generated struct (the nested content
shape), every inner field type is a pointer as well. -/
def specUpdateShapeAllOptional (shape : List OField) : Bool :=
  shape.all (fun f =>
    match f.ty with
    | GTy.gptr (GTy.gslice (GTy.gstruct _ fs)) => fs.all (fun g => isPtrG g.2.2)
    | GTy.gptr _ => true
    | _ => false)

/-! # Theorems

First the library of facts about the Go-map model, then one theorem per claim
(with its witness or counterexample). -/

theorem insAll_nil {α : Type} (key : α → String) (m : List (String × α)) :
    insAll key m [] = m := rfl

theorem insAll_cons {α : Type} (key : α → String) (m : List (String × α)) (a : α)
    (l : List α) : insAll key m (a :: l) = insAll key (mapUpd m (key a) a) l := rfl

theorem mapGet_mapUpd_self {α : Type} (m : List (String × α)) (k : String) (v : α) :
    mapGet (mapUpd m k v) k = some v := by
  induction m with
  | nil => simp [mapUpd, mapGet]
  | cons p r ih =>
      by_cases h : p.1 = k
      · simp [mapUpd, h, mapGet]
      · simp [mapUpd, h, mapGet, ih]

theorem mapGet_mapUpd_ne {α : Type} (m : List (String × α)) {k k' : String} (v : α)
    (h : k' ≠ k) : mapGet (mapUpd m k v) k' = mapGet m k' := by
  induction m with
  | nil => simp [mapUpd, mapGet, Ne.symm h]
  | cons p r ih =>
      by_cases hp : p.1 = k
      · simp [mapUpd, hp, mapGet, Ne.symm h]
      · simp [mapUpd, hp, mapGet, ih]

theorem mapKeys_nil {α : Type} : mapKeys ([] : List (String × α)) = [] := rfl

theorem mapKeys_cons {α : Type} (p : String × α) (r : List (String × α)) :
    mapKeys (p :: r) = p.1 :: mapKeys r := rfl

theorem mem_keys_mapUpd {α : Type} (m : List (String × α)) (k k' : String) (v : α) :
    k' ∈ mapKeys (mapUpd m k v) ↔ k' = k ∨ k' ∈ mapKeys m := by
  induction m with
  | nil => simp [mapUpd, mapKeys]
  | cons p r ih =>
      by_cases hp : p.1 = k
      · simp only [mapUpd, if_pos hp, mapKeys_cons, List.mem_cons]
        rw [hp]
        tauto
      · simp only [mapUpd, if_neg hp, mapKeys_cons, List.mem_cons, ih]
        tauto

theorem nodup_keys_mapUpd {α : Type} (m : List (String × α)) (k : String) (v : α)
    (h : (mapKeys m).Nodup) : (mapKeys (mapUpd m k v)).Nodup := by
  induction m with
  | nil => simp [mapUpd, mapKeys]
  | cons p r ih =>
      rw [mapKeys_cons, List.nodup_cons] at h
      by_cases hp : p.1 = k
      · simp only [mapUpd, if_pos hp, mapKeys_cons, List.nodup_cons]
        refine ⟨?_, h.2⟩
        have h1 := h.1
        rwa [hp] at h1
      · simp only [mapUpd, if_neg hp, mapKeys_cons, List.nodup_cons]
        refine ⟨?_, ih h.2⟩
        rw [mem_keys_mapUpd]
        rintro (h' | h')
        · exact hp h'
        · exact h.1 h'

theorem mem_of_mapGet {α : Type} {m : List (String × α)} {k : String} {v : α}
    (h : mapGet m k = some v) : (k, v) ∈ m := by
  induction m with
  | nil => simp [mapGet] at h
  | cons p r ih =>
      obtain ⟨a, b⟩ := p
      by_cases hp : a = k
      · simp [mapGet, hp] at h
        simp [hp, h]
      · simp [mapGet, hp] at h
        exact List.mem_cons_of_mem _ (ih h)

theorem mem_mapUpd {α : Type} {m : List (String × α)} {k : String} {v : α}
    {p : String × α} (h : p ∈ mapUpd m k v) : p ∈ m ∨ p = (k, v) := by
  induction m with
  | nil => simp [mapUpd] at h; simp [h]
  | cons q r ih =>
      by_cases hq : q.1 = k
      · simp [mapUpd, hq] at h
        rcases h with h | h
        · right; simp [h]
        · left; exact List.mem_cons_of_mem _ h
      · simp [mapUpd, hq] at h
        rcases h with h | h
        · left; simp [h]
        · rcases ih h with h' | h'
          · left; exact List.mem_cons_of_mem _ h'
          · right; exact h'

theorem mem_keys_insAll {α : Type} (key : α → String) (l : List α) (m : List (String × α))
    (k : String) : k ∈ mapKeys (insAll key m l) ↔ k ∈ mapKeys m ∨ k ∈ l.map key := by
  induction l generalizing m with
  | nil => simp [insAll_nil]
  | cons a l ih =>
      rw [insAll_cons, ih, mem_keys_mapUpd]
      simp
      tauto

theorem nodup_keys_insAll {α : Type} (key : α → String) (l : List α)
    (m : List (String × α)) (h : (mapKeys m).Nodup) :
    (mapKeys (insAll key m l)).Nodup := by
  induction l generalizing m with
  | nil => simpa [insAll_nil] using h
  | cons a l ih => exact ih _ (nodup_keys_mapUpd _ _ _ h)

theorem mapGet_insAll_of_not_mem {α : Type} (key : α → String) {l : List α}
    (m : List (String × α)) {k : String} (h : k ∉ l.map key) :
    mapGet (insAll key m l) k = mapGet m k := by
  induction l generalizing m with
  | nil => simp [insAll_nil]
  | cons a l ih =>
      simp only [List.map_cons, List.mem_cons, not_or] at h
      rw [insAll_cons, ih _ h.2, mapGet_mapUpd_ne _ _ h.1]

theorem mapGet_insAll_self {α : Type} (key : α → String) {l : List α}
    (m : List (String × α)) {x : α} (hl : (l.map key).Nodup) (hx : x ∈ l) :
    mapGet (insAll key m l) (key x) = some x := by
  induction l generalizing m with
  | nil => cases hx
  | cons a l ih =>
      simp only [List.map_cons, List.nodup_cons] at hl
      rcases List.mem_cons.mp hx with rfl | hx'
      · rw [insAll_cons, mapGet_insAll_of_not_mem key _ hl.1, mapGet_mapUpd_self]
      · rw [insAll_cons]
        exact ih _ hl.2 hx'

theorem mem_insAll {α : Type} {key : α → String} {l : List α} {m : List (String × α)}
    {p : String × α} (h : p ∈ insAll key m l) : p ∈ m ∨ ∃ x ∈ l, p = (key x, x) := by
  induction l generalizing m with
  | nil => left; simpa [insAll_nil] using h
  | cons a l ih =>
      rw [insAll_cons] at h
      rcases ih h with h' | ⟨x, hx, rfl⟩
      · rcases mem_mapUpd h' with h'' | h''
        · left; exact h''
        · right; exact ⟨a, List.mem_cons_self a l, h''⟩
      · right; exact ⟨x, List.mem_cons_of_mem _ hx, rfl⟩

theorem merge_map_key_eq {α : Type} (key : α → String) (cur inp : List α) :
    (getAllContentsWithUpdated key cur inp).map key =
      mapKeys (insAll key (insAll key [] cur) inp) := by
  unfold getAllContentsWithUpdated mapKeys
  rw [List.map_map]
  apply List.map_congr_left
  intro p hp
  simp only [Function.comp_apply]
  rcases mem_insAll hp with h | ⟨x, _, rfl⟩
  · rcases mem_insAll h with h0 | ⟨x, _, rfl⟩
    · cases h0
    · rfl
  · rfl

/-- C1: for every pair of content collections whose language keys are
pairwise distinct on each side, the merge returns a collection with exactly
one element per distinct key of either input (its key list is duplicate-free
and a key occurs in it iff it occurs in one of the inputs); every incoming
element is in the result, so a shared key carries the incoming element; and
every current element whose key is absent from the incoming side is preserved.
The reflective mergeContents of the service layer computes the same
function. -/
theorem origin_c1_merge_exactly_one_per_key {α : Type} (key : α → String)
    (current incoming : List α)
    (hc : (current.map key).Nodup) (hi : (incoming.map key).Nodup) :
    ((getAllContentsWithUpdated key current incoming).map key).Nodup ∧
    (∀ k, k ∈ (getAllContentsWithUpdated key current incoming).map key ↔
      (k ∈ current.map key ∨ k ∈ incoming.map key)) ∧
    (∀ x ∈ incoming, x ∈ getAllContentsWithUpdated key current incoming) ∧
    (∀ x ∈ current, key x ∉ incoming.map key →
      x ∈ getAllContentsWithUpdated key current incoming) ∧
    mergeContents key current incoming = getAllContentsWithUpdated key current incoming := by
  refine ⟨?_, ?_, ?_, ?_, rfl⟩
  · rw [merge_map_key_eq]
    exact nodup_keys_insAll _ _ _ (nodup_keys_insAll _ _ _ (by simp [mapKeys]))
  · intro k
    rw [merge_map_key_eq, mem_keys_insAll, mem_keys_insAll]
    simp [mapKeys]
  · intro x hx
    have hg := mapGet_insAll_self key (insAll key [] current) hi hx
    exact List.mem_map.mpr ⟨(key x, x), mem_of_mapGet hg, rfl⟩
  · intro x hx hnot
    have hg : mapGet (insAll key (insAll key [] current) incoming) (key x) = some x := by
      rw [mapGet_insAll_of_not_mem key _ hnot]
      exact mapGet_insAll_self key _ hc hx
    exact List.mem_map.mpr ⟨(key x, x), mem_of_mapGet hg, rfl⟩

theorem origin_c1_witness :
    ("en", "new") ∈ getAllContentsWithUpdated Prod.fst
        [("en", "old"), ("ar", "arabic")] [("en", "new")] ∧
    ("ar", "arabic") ∈ getAllContentsWithUpdated Prod.fst
        [("en", "old"), ("ar", "arabic")] [("en", "new")] :=
  ⟨(origin_c1_merge_exactly_one_per_key Prod.fst [("en", "old"), ("ar", "arabic")]
      [("en", "new")] (by decide) (by decide)).2.2.1 ("en", "new") (by decide),
   (origin_c1_merge_exactly_one_per_key Prod.fst [("en", "old"), ("ar", "arabic")]
      [("en", "new")] (by decide) (by decide)).2.2.2.1 ("ar", "arabic") (by decide) (by decide)⟩

/-- C9, counterexample: merging with an empty incoming side is not the
identity as a set for every collection.  When the current collection holds
two elements with the same language key, the merge keeps only the later one,
so the earlier element is lost. -/
theorem origin_c9_counterexample :
    ¬ (∀ (current : List (String × String)) (x : String × String),
        x ∈ getAllContentsWithUpdated Prod.fst current [] ↔ x ∈ current) := by
  intro h
  have h1 := (h [("en", "a"), ("en", "b")] ("en", "a")).mpr (by decide)
  exact absurd h1 (by decide)

/-- C9, amended: for collections whose language keys are pairwise distinct,
merging with an empty side is the identity up to set equality:
merge(current, []) has the same members as current, and merge([], incoming)
has the same members as incoming. -/
theorem origin_c9_empty_side_identity {α : Type} (key : α → String)
    (current incoming : List α) (hc : (current.map key).Nodup)
    (hi : (incoming.map key).Nodup) :
    (∀ x, x ∈ getAllContentsWithUpdated key current [] ↔ x ∈ current) ∧
    (∀ x, x ∈ getAllContentsWithUpdated key [] incoming ↔ x ∈ incoming) := by
  constructor
  · intro x
    constructor
    · intro hx
      rcases List.mem_map.mp hx with ⟨p, hp, rfl⟩
      rw [insAll_nil] at hp
      rcases mem_insAll hp with h0 | ⟨y, hy, rfl⟩
      · cases h0
      · exact hy
    · intro hx
      have hg : mapGet (insAll key (insAll key [] current) []) (key x) = some x := by
        rw [insAll_nil]
        exact mapGet_insAll_self key _ hc hx
      exact List.mem_map.mpr ⟨(key x, x), mem_of_mapGet hg, rfl⟩
  · intro x
    constructor
    · intro hx
      rcases List.mem_map.mp hx with ⟨p, hp, rfl⟩
      rcases mem_insAll hp with h0 | ⟨y, hy, rfl⟩
      · rw [insAll_nil] at h0
        cases h0
      · exact hy
    · intro hx
      have hg : mapGet (insAll key (insAll key [] []) incoming) (key x) = some x :=
        mapGet_insAll_self key _ hi hx
      exact List.mem_map.mpr ⟨(key x, x), mem_of_mapGet hg, rfl⟩

theorem origin_c9_witness :
    ("en", "a") ∈ getAllContentsWithUpdated Prod.fst [("en", "a")] [] ∧
    ("fr", "b") ∈ getAllContentsWithUpdated Prod.fst [] [("fr", "b")] :=
  ⟨((origin_c9_empty_side_identity Prod.fst [("en", "a")] [("fr", "b")]
      (by decide) (by decide)).1 ("en", "a")).mpr (by decide),
   ((origin_c9_empty_side_identity Prod.fst [("en", "a")] [("fr", "b")]
      (by decide) (by decide)).2 ("fr", "b")).mpr (by decide)⟩

/-- C2: a Blog with two content entries, languages en and ar, updated with
parameters carrying exactly one content entry (language en, new text), ends up
with a content set of exactly two entries: the ar entry unchanged and the en
entry replaced by the entry built from the update item; the other model fields
are untouched, so the update collection is merged by language key, not
substituted wholesale. -/
theorem origin_c2_update_merges_contents_by_language
    (c1 c2 : BlogContent) (h1 : c1.langID = "en") (h2 : c2.langID = "ar")
    (m : Model) (own : String) (pub : Bool) (newText : String) :
    let b' := updateBlogFromUpdateParameters (Blog.mk m [c1, c2] own pub)
      (BlogUpdateParams.mk (some [⟨"en", newText⟩]) none none)
    b'.contents.length = 2 ∧
    c2 ∈ b'.contents ∧
    copyBlogContentItem ⟨"en", newText⟩ ∈ b'.contents ∧
    (∀ x ∈ b'.contents, x = copyBlogContentItem ⟨"en", newText⟩ ∨ x = c2) ∧
    b'.model = m ∧ b'.owner = own ∧ b'.isPublished = pub := by
  intro b'
  have hcont : b'.contents = [copyBlogContentItem ⟨"en", newText⟩, c2] := by
    show (updateBlogFromUpdateParameters (Blog.mk m [c1, c2] own pub)
      (BlogUpdateParams.mk (some [⟨"en", newText⟩]) none none)).contents =
      [copyBlogContentItem ⟨"en", newText⟩, c2]
    simp [updateBlogFromUpdateParameters, handleContentUpdateBlog, insAll, mapUpd, h1, h2]
  refine ⟨?_, ?_, ?_, ?_, rfl, rfl, rfl⟩
  · rw [hcont]; rfl
  · rw [hcont]; simp
  · rw [hcont]; simp
  · rw [hcont]; intro x hx; simpa using hx

theorem origin_c2_witness :
    let b' := updateBlogFromUpdateParameters
      (Blog.mk ⟨1, 2, 3⟩
        [⟨⟨"en", ⟨"", "", 0, 0⟩, 0, 0⟩, "old en", 7⟩,
         ⟨⟨"ar", ⟨"", "", 0, 0⟩, 0, 0⟩, "old ar", 7⟩] "me" true)
      (BlogUpdateParams.mk (some [⟨"en", "new text"⟩]) none none)
    b'.contents.length = 2 ∧
    (⟨⟨"ar", ⟨"", "", 0, 0⟩, 0, 0⟩, "old ar", 7⟩ : BlogContent) ∈ b'.contents ∧
    copyBlogContentItem ⟨"en", "new text"⟩ ∈ b'.contents ∧
    (∀ x ∈ b'.contents,
      x = copyBlogContentItem ⟨"en", "new text"⟩ ∨
      x = (⟨⟨"ar", ⟨"", "", 0, 0⟩, 0, 0⟩, "old ar", 7⟩ : BlogContent)) ∧
    b'.model = ⟨1, 2, 3⟩ ∧ b'.owner = "me" ∧ b'.isPublished = true :=
  origin_c2_update_merges_contents_by_language
    ⟨⟨"en", ⟨"", "", 0, 0⟩, 0, 0⟩, "old en", 7⟩
    ⟨⟨"ar", ⟨"", "", 0, 0⟩, 0, 0⟩, "old ar", 7⟩
    (by decide) (by decide) ⟨1, 2, 3⟩ "me" true "new text"

/-- C8, counterexample: GetByID with every database call succeeding reports
success yet never commits (nor rolls back) the transaction it began, so not
every repository operation runs inside a transaction that is committed on
success. -/
theorem origin_c8_counterexample :
    (repoGetByID (⟨none, none, none, none, none⟩ : TxOutcome Unit)).1 = none ∧
    TxEvent.beginTx ∈ (repoGetByID (⟨none, none, none, none, none⟩ : TxOutcome Unit)).2 ∧
    TxEvent.commitTx ∉ (repoGetByID (⟨none, none, none, none, none⟩ : TxOutcome Unit)).2 ∧
    TxEvent.rollbackTx ∉ (repoGetByID (⟨none, none, none, none, none⟩ : TxOutcome Unit)).2 := by
  decide

/-- C8, amended: Create, Update and Delete run inside a transaction committed
on success and rolled back on a failing write/fetch, surfacing the first
error, except that a failing rollback replaces the original error and a
failing commit is surfaced without rollback; GetByID and GetAll begin a
transaction, surface begin/query errors, and never commit nor roll back. -/
theorem origin_c8_transaction_discipline {E : Type} (oc : TxOutcome E) :
    (TxEvent.commitTx ∉ (repoGetByID oc).2 ∧ TxEvent.rollbackTx ∉ (repoGetByID oc).2 ∧
      TxEvent.beginTx ∈ (repoGetByID oc).2) ∧
    (TxEvent.commitTx ∉ (repoGetAll oc).2 ∧ TxEvent.rollbackTx ∉ (repoGetAll oc).2 ∧
      TxEvent.beginTx ∈ (repoGetAll oc).2) ∧
    (oc.beginErr = none → oc.op1Err = none → oc.commitErr = none →
      (repoCreate oc).1 = none ∧ TxEvent.commitTx ∈ (repoCreate oc).2 ∧
      (repoUpdate oc).1 = none ∧ TxEvent.commitTx ∈ (repoUpdate oc).2) ∧
    (oc.beginErr = none → oc.op1Err = none → oc.op2Err = none → oc.commitErr = none →
      (repoDelete oc).1 = none ∧ TxEvent.commitTx ∈ (repoDelete oc).2) ∧
    (∀ e, oc.beginErr = none → oc.op1Err = some e →
      TxEvent.rollbackTx ∈ (repoCreate oc).2 ∧ TxEvent.commitTx ∉ (repoCreate oc).2 ∧
      (repoCreate oc).1 = some (oc.rollbackErr.getD e) ∧
      (repoUpdate oc).1 = some (oc.rollbackErr.getD e) ∧
      TxEvent.rollbackTx ∈ (repoDelete oc).2 ∧
      (repoDelete oc).1 = some (oc.rollbackErr.getD e)) ∧
    (∀ e, oc.beginErr = none → oc.op1Err = none → oc.op2Err = some e →
      TxEvent.rollbackTx ∈ (repoDelete oc).2 ∧
      (repoDelete oc).1 = some (oc.rollbackErr.getD e)) ∧
    (∀ c, oc.beginErr = none → oc.op1Err = none → oc.commitErr = some c →
      (repoCreate oc).1 = some c ∧ TxEvent.rollbackTx ∉ (repoCreate oc).2 ∧
      (repoUpdate oc).1 = some c) ∧
    (∀ e, oc.beginErr = some e →
      (repoGetByID oc).1 = some e ∧ (repoGetAll oc).1 = some e ∧
      (repoCreate oc).1 = some e ∧ (repoUpdate oc).1 = some e ∧
      (repoDelete oc).1 = some e ∧ (repoCreate oc).2 = [TxEvent.beginTx]) ∧
    (oc.beginErr = none →
      (repoGetByID oc).1 = oc.op1Err ∧ (repoGetAll oc).1 = oc.op1Err) := by
  obtain ⟨b, o1, o2, c, r⟩ := oc
  cases b <;> cases o1 <;> cases o2 <;> cases c <;> cases r <;>
    simp [repoGetByID, repoGetAll, repoCreate, repoUpdate, repoDelete, Option.getD]

theorem origin_c8_witness :
    (repoCreate (⟨none, none, none, none, none⟩ : TxOutcome Bool)).1 = none ∧
    TxEvent.commitTx ∈ (repoCreate (⟨none, none, none, none, none⟩ : TxOutcome Bool)).2 ∧
    TxEvent.rollbackTx ∈ (repoCreate (⟨none, some true, none, none, none⟩ : TxOutcome Bool)).2 ∧
    (repoCreate (⟨none, some true, none, none, none⟩ : TxOutcome Bool)).1 = some true := by
  have hok := origin_c8_transaction_discipline (⟨none, none, none, none, none⟩ : TxOutcome Bool)
  have hfail := origin_c8_transaction_discipline (⟨none, some true, none, none, none⟩ : TxOutcome Bool)
  exact ⟨(hok.2.2.1 rfl rfl rfl).1, (hok.2.2.1 rfl rfl rfl).2.1,
    (hfail.2.2.2.2.1 true rfl rfl).1, (hfail.2.2.2.2.1 true rfl rfl).2.2.1⟩

theorem typeOf_zeroVal (t : Ty) : typeOf (zeroVal t) = t := by
  cases t <;> rfl

theorem tyCore_ne_ptr_fuel :
    ∀ (n : Nat) (t : Ty), tyPtrDepth t ≤ n → ∀ u, tyCore t ≠ Ty.tptr u := by
  intro n
  induction n with
  | zero =>
      intro t ht u
      cases t <;> simp [tyPtrDepth] at ht ⊢ <;> simp [tyCore]
  | succ n ih =>
      intro t ht u
      cases t with
      | tptr v =>
          simp only [tyCore]
          refine ih v ?_ u
          simp [tyPtrDepth] at ht
          omega
      | tstr => simp [tyCore]
      | tnat => simp [tyCore]
      | tbool => simp [tyCore]
      | tslice v => simp [tyCore]
      | tstruct nm fs => simp [tyCore]

theorem tyCore_not_ptr (t u : Ty) : tyCore t ≠ Ty.tptr u :=
  tyCore_ne_ptr_fuel (tyPtrDepth t) t le_rfl u

theorem valCoreTy_ne_ptr_fuel :
    ∀ (n : Nat) (d : Val), ptrDepth d ≤ n → ∀ u, valCoreTy d ≠ Ty.tptr u := by
  intro n
  induction n with
  | zero =>
      intro d hd u
      cases d with
      | vptr t v => simp [ptrDepth] at hd
      | vnilptr t => exact tyCore_not_ptr t u
      | vstr s => simp [valCoreTy, typeOf]
      | vnat m => simp [valCoreTy, typeOf]
      | vbool b => simp [valCoreTy, typeOf]
      | vslice t es => simp [valCoreTy, typeOf]
      | vstruct nm fts fs => simp [valCoreTy, typeOf]
  | succ n ih =>
      intro d hd u
      cases d with
      | vptr t v =>
          simp only [valCoreTy]
          refine ih v ?_ u
          simp [ptrDepth] at hd
          omega
      | vnilptr t => exact tyCore_not_ptr t u
      | vstr s => simp [valCoreTy, typeOf]
      | vnat m => simp [valCoreTy, typeOf]
      | vbool b => simp [valCoreTy, typeOf]
      | vslice t es => simp [valCoreTy, typeOf]
      | vstruct nm fts fs => simp [valCoreTy, typeOf]

theorem beq_tptr_eq_false (t u : Ty) (h : ∀ w, u ≠ Ty.tptr w) :
    Ty.beq (Ty.tptr t) u = false := by
  cases u with
  | tptr w => exact absurd rfl (h w)
  | tstr => rfl
  | tnat => rfl
  | tbool => rfl
  | tslice v => rfl
  | tstruct nm fs => rfl

theorem copyCore_mismatch_fuel :
    ∀ (n : Nat) (d s : Val), ptrDepth d ≤ n →
      assignable (typeOf s) (valCoreTy d) = false →
      convertible (typeOf s) (valCoreTy d) = false →
      (copyCore d s).2 = some (Err.typeMismatch (typeOf s) (valCoreTy d)) ∧
      (nilFree d = true → (copyCore d s).1 = d) := by
  intro n
  induction n with
  | zero =>
      intro d s hd ha hc
      cases d
      case vptr t v => simp [ptrDepth] at hd
      case vnilptr t =>
          refine ⟨?_, fun h => by simp [nilFree] at h⟩
          simp only [valCoreTy] at ha hc ⊢
          simp [copyCore, assignStep, typeOf_zeroVal, ha, hc]
      all_goals
        refine ⟨?_, fun _ => ?_⟩ <;>
          (simp only [copyCore, assignStep, valCoreTy] at ha hc ⊢; simp [ha, hc])
  | succ n ih =>
      intro d s hd ha hc
      cases d
      case vptr t v =>
          have hd' : ptrDepth v ≤ n := by
            simp [ptrDepth] at hd
            omega
          simp only [valCoreTy] at ha hc ⊢
          have hv := ih v s hd' ha hc
          constructor
          · simp only [copyCore]
            exact hv.1
          · intro hnf
            simp only [nilFree] at hnf
            simp only [copyCore]
            rw [hv.2 hnf]
      case vnilptr t =>
          refine ⟨?_, fun h => by simp [nilFree] at h⟩
          simp only [valCoreTy] at ha hc ⊢
          simp [copyCore, assignStep, typeOf_zeroVal, ha, hc]
      all_goals
        refine ⟨?_, fun _ => ?_⟩ <;>
          (simp only [copyCore, assignStep, valCoreTy] at ha hc ⊢; simp [ha, hc])

/-- C4, counterexample: a source pointer chain terminating in nil is not
skipped silently.  For a string destination and a nil string-pointer source,
copyField signals an error rather than none; and for a nil-pointer
destination, the destination does not stay unset (its pointer is allocated). -/
theorem origin_c4_counterexample :
    ¬ ((copyField (Val.vstr "x") (Val.vnilptr Ty.tstr)).2 = none ∧
       (copyField (Val.vnilptr Ty.tstr) (Val.vnilptr Ty.tstr)).1 = Val.vnilptr Ty.tstr) := by
  rintro ⟨h1, h2⟩
  have e1 : (copyField (Val.vstr "x") (Val.vnilptr Ty.tstr)).2 =
      some (Err.typeMismatch (Ty.tptr Ty.tstr) Ty.tstr) := rfl
  rw [e1] at h1
  exact Option.noConfusion h1

/-- C4, amended: when the source pointer chain terminates in a nil pointer,
copyField does not skip the field: the nil pointer survives the source
dereference loop, its pointer type can be neither assigned nor converted to
the dereferenced destination type, and the copy fails with a TypeMismatch
naming the source pointer type and the destination core type.  A destination
whose own pointer chain holds no nil pointer is left unchanged (whereas nil
destination pointers are allocated to zero values before the failure, as the
counterexample shows). -/
theorem origin_c4_nil_source_mismatch (dst src : Val) (t : Ty)
    (h : derefSrc src = Val.vnilptr t) :
    (copyField dst src).2 = some (Err.typeMismatch (Ty.tptr t) (valCoreTy dst)) ∧
    (nilFree dst = true → (copyField dst src).1 = dst) := by
  have hne : ∀ u, valCoreTy dst ≠ Ty.tptr u :=
    valCoreTy_ne_ptr_fuel (ptrDepth dst) dst le_rfl
  have ha : assignable (Ty.tptr t) (valCoreTy dst) = false :=
    beq_tptr_eq_false t _ hne
  have hc : convertible (Ty.tptr t) (valCoreTy dst) = false := by
    unfold convertible
    rw [show Ty.beq (Ty.tptr t) (valCoreTy dst) = false from ha]
    simp
  unfold copyField
  rw [h]
  exact copyCore_mismatch_fuel (ptrDepth dst) dst (Val.vnilptr t) le_rfl ha hc

theorem origin_c4_witness :
    derefSrc (Val.vnilptr Ty.tstr) = Val.vnilptr Ty.tstr ∧
    (copyField (Val.vstr "x") (Val.vnilptr Ty.tstr)).2 =
      some (Err.typeMismatch (Ty.tptr Ty.tstr) (valCoreTy (Val.vstr "x"))) ∧
    nilFree (Val.vstr "x") = true ∧
    (copyField (Val.vstr "x") (Val.vnilptr Ty.tstr)).1 = Val.vstr "x" :=
  ⟨rfl,
   (origin_c4_nil_source_mismatch (Val.vstr "x") (Val.vnilptr Ty.tstr) Ty.tstr rfl).1,
   rfl,
   (origin_c4_nil_source_mismatch (Val.vstr "x") (Val.vnilptr Ty.tstr) Ty.tstr rfl).2 rfl⟩

theorem copyFieldsLoop_append (dfs a b : List (String × Val)) :
    copyFieldsLoop dfs (a ++ b) =
      (match copyFieldsLoop dfs a with
       | (dfs', none) => copyFieldsLoop dfs' b
       | (dfs', some e) => (dfs', some e)) := by
  induction a generalizing dfs with
  | nil => simp [copyFieldsLoop]
  | cons p a ih =>
      obtain ⟨n, sv⟩ := p
      simp only [List.cons_append, copyFieldsLoop]
      cases hg : fieldGet dfs n with
      | none =>
          simp only [hg]
          exact ih dfs
      | some dv =>
          simp only [hg]
          cases he : (copyField dv sv).2 with
          | some e => simp only [he]
          | none =>
              simp only [he]
              exact ih _

theorem fieldGet_fieldSet_ne (dfs : List (String × Val)) {n m : String} (v : Val)
    (h : m ≠ n) : fieldGet (fieldSet dfs n v) m = fieldGet dfs m := by
  induction dfs with
  | nil => simp [fieldSet]
  | cons p r ih =>
      by_cases hp : p.1 = n
      · simp [fieldSet, hp, fieldGet, Ne.symm h]
      · simp [fieldSet, hp, fieldGet, ih]

theorem copyFieldsLoop_unchanged (dfs sfs : List (String × Val)) {m : String}
    (h : m ∉ sfs.map Prod.fst) :
    fieldGet (copyFieldsLoop dfs sfs).1 m = fieldGet dfs m := by
  induction sfs generalizing dfs with
  | nil => simp [copyFieldsLoop]
  | cons p rest ih =>
      obtain ⟨n, sv⟩ := p
      simp only [List.map_cons, List.mem_cons, not_or] at h
      simp only [copyFieldsLoop]
      cases hg : fieldGet dfs n with
      | none =>
          simp only [hg]
          exact ih dfs h.2
      | some dv =>
          simp only [hg]
          cases he : (copyField dv sv).2 with
          | some e =>
              simp only [he]
              exact fieldGet_fieldSet_ne dfs _ h.1
          | none =>
              simp only [he]
              rw [ih _ h.2, fieldGet_fieldSet_ne dfs _ h.1]

/-- C5, counterexample: copying between two structs where the first
same-named field pair is compatible and the second is incompatible fails with
a TypeMismatch naming the second field and both types, but the first
destination field has already been overwritten, so not every other field of
the destination keeps the value it had before the call. -/
theorem origin_c5_counterexample :
    (copyStruct
        (Val.vstruct "D" (FieldTys.fcons "A" Ty.tnat (FieldTys.fcons "B" Ty.tstr FieldTys.fnil))
          [("A", Val.vnat 1), ("B", Val.vstr "s")])
        (Val.vstruct "S" (FieldTys.fcons "A" Ty.tnat (FieldTys.fcons "B" Ty.tbool FieldTys.fnil))
          [("A", Val.vnat 5), ("B", Val.vbool true)])).2 =
      some (Err.fieldErr "B" (Err.typeMismatch Ty.tbool Ty.tstr)) ∧
    ¬ (fieldGet (copyFieldsLoop [("A", Val.vnat 1), ("B", Val.vstr "s")]
        [("A", Val.vnat 5), ("B", Val.vbool true)]).1 "A" = some (Val.vnat 1)) := by
  refine ⟨rfl, fun h => ?_⟩
  have e : fieldGet (copyFieldsLoop [("A", Val.vnat 1), ("B", Val.vstr "s")]
      [("A", Val.vnat 5), ("B", Val.vbool true)]).1 "A" = some (Val.vnat 5) := rfl
  rw [e] at h
  injection h with h1
  injection h1 with h2
  exact absurd h2 (by decide)

/-- C5, amended: when the source decomposes as earlier fields, then a field n
whose (dereferenced) value can be neither assigned nor converted to the core
type of the matching destination field, copyStruct fails with a TypeMismatch
wrapped with the field name and naming both types; destination fields not
named by the earlier source fields and different from n keep the value they
had before the call (fields matched by the earlier source fields have already
been copied, as the counterexample shows). -/
theorem origin_c5_mismatch_names_field_and_types (dn sn : String)
    (dftys sftys : FieldTys) (dfs pre post : List (String × Val))
    (n : String) (sv dv : Val)
    (hpre : (copyFieldsLoop dfs pre).2 = none)
    (hget : fieldGet (copyFieldsLoop dfs pre).1 n = some dv)
    (ha : assignable (typeOf (derefSrc sv)) (valCoreTy dv) = false)
    (hc : convertible (typeOf (derefSrc sv)) (valCoreTy dv) = false) :
    (copyStruct (Val.vstruct dn dftys dfs)
        (Val.vstruct sn sftys (pre ++ (n, sv) :: post))).2 =
      some (Err.fieldErr n (Err.typeMismatch (typeOf (derefSrc sv)) (valCoreTy dv))) ∧
    (∀ m, m ∉ pre.map Prod.fst → m ≠ n →
      fieldGet (copyFieldsLoop dfs (pre ++ (n, sv) :: post)).1 m = fieldGet dfs m) := by
  have hmid := copyFieldsLoop_append dfs pre ((n, sv) :: post)
  have hpre' : copyFieldsLoop dfs pre = ((copyFieldsLoop dfs pre).1, none) := by
    rw [← hpre]
  rw [hpre'] at hmid
  simp only [] at hmid
  have hcf : (copyField dv sv).2 =
      some (Err.typeMismatch (typeOf (derefSrc sv)) (valCoreTy dv)) :=
    (copyCore_mismatch_fuel (ptrDepth dv) dv (derefSrc sv) le_rfl ha hc).1
  have hstep : copyFieldsLoop (copyFieldsLoop dfs pre).1 ((n, sv) :: post) =
      (fieldSet (copyFieldsLoop dfs pre).1 n (copyField dv sv).1,
        some (Err.fieldErr n (Err.typeMismatch (typeOf (derefSrc sv)) (valCoreTy dv)))) := by
    simp only [copyFieldsLoop, hget, hcf]
  constructor
  · show (copyFieldsLoop dfs (pre ++ (n, sv) :: post)).2 = _
    rw [hmid, hstep]
  · intro m hm hn
    rw [hmid, hstep]
    simp only []
    rw [fieldGet_fieldSet_ne _ _ hn]
    exact copyFieldsLoop_unchanged dfs pre hm

theorem origin_c5_witness :
    (copyStruct
        (Val.vstruct "D"
          (FieldTys.fcons "A" Ty.tnat
            (FieldTys.fcons "B" Ty.tstr (FieldTys.fcons "C" Ty.tbool FieldTys.fnil)))
          [("A", Val.vnat 1), ("B", Val.vstr "s"), ("C", Val.vbool false)])
        (Val.vstruct "S" (FieldTys.fcons "A" Ty.tnat (FieldTys.fcons "B" Ty.tbool FieldTys.fnil))
          [("A", Val.vnat 5), ("B", Val.vbool true)])).2 =
      some (Err.fieldErr "B" (Err.typeMismatch Ty.tbool Ty.tstr)) ∧
    fieldGet (copyFieldsLoop
        [("A", Val.vnat 1), ("B", Val.vstr "s"), ("C", Val.vbool false)]
        [("A", Val.vnat 5), ("B", Val.vbool true)]).1 "C" =
      fieldGet [("A", Val.vnat 1), ("B", Val.vstr "s"), ("C", Val.vbool false)] "C" :=
  ⟨(origin_c5_mismatch_names_field_and_types "D" "S"
      (FieldTys.fcons "A" Ty.tnat
        (FieldTys.fcons "B" Ty.tstr (FieldTys.fcons "C" Ty.tbool FieldTys.fnil)))
      (FieldTys.fcons "A" Ty.tnat (FieldTys.fcons "B" Ty.tbool FieldTys.fnil))
      [("A", Val.vnat 1), ("B", Val.vstr "s"), ("C", Val.vbool false)]
      [("A", Val.vnat 5)] [] "B" (Val.vbool true) (Val.vstr "s")
      rfl rfl rfl rfl).1,
   (origin_c5_mismatch_names_field_and_types "D" "S"
      (FieldTys.fcons "A" Ty.tnat
        (FieldTys.fcons "B" Ty.tstr (FieldTys.fcons "C" Ty.tbool FieldTys.fnil)))
      (FieldTys.fcons "A" Ty.tnat (FieldTys.fcons "B" Ty.tbool FieldTys.fnil))
      [("A", Val.vnat 1), ("B", Val.vstr "s"), ("C", Val.vbool false)]
      [("A", Val.vnat 5)] [] "B" (Val.vbool true) (Val.vstr "s")
      rfl rfl rfl rfl).2 "C" (by decide) (by decide)⟩

theorem hcu_fold_get_unchanged (elemTy : Ty) (updates : List Val)
    (m : List (String × Val)) (k : String)
    (hk : ∀ v ∈ updates, getLanguageID v = k → (copyItem elemTy v).2.isSome = true) :
    mapGet (updates.foldl (hcuStep elemTy) m) k = mapGet m k := by
  induction updates generalizing m with
  | nil => rfl
  | cons v rest ih =>
      simp only [List.foldl_cons]
      cases he : (copyItem elemTy v).2 with
      | some e =>
          rw [show hcuStep elemTy m v = m by simp [hcuStep, he]]
          exact ih _ (fun w hw hkk => hk w (List.mem_cons_of_mem _ hw) hkk)
      | none =>
          have hne : getLanguageID v ≠ k := by
            intro hkk
            have hkv := hk v (List.mem_cons_self v rest) hkk
            rw [he] at hkv
            simp at hkv
          rw [show hcuStep elemTy m v = mapUpd m (getLanguageID v) (copyItem elemTy v).1 by
              simp [hcuStep, he],
            ih _ (fun w hw hkk => hk w (List.mem_cons_of_mem _ hw) hkk),
            mapGet_mapUpd_ne _ _ (Ne.symm hne)]

theorem hcu_fold_mem (elemTy : Ty) (updates : List Val) (m : List (String × Val))
    (p : String × Val) (hp : p ∈ updates.foldl (hcuStep elemTy) m) :
    p ∈ m ∨ ∃ v ∈ updates, (copyItem elemTy v).2 = none ∧
      p = (getLanguageID v, (copyItem elemTy v).1) := by
  induction updates generalizing m with
  | nil => left; simpa using hp
  | cons v rest ih =>
      simp only [List.foldl_cons] at hp
      cases he : (copyItem elemTy v).2 with
      | some e =>
          rw [show hcuStep elemTy m v = m by simp [hcuStep, he]] at hp
          rcases ih _ hp with h | ⟨w, hw, hs, hpw⟩
          · left; exact h
          · right; exact ⟨w, List.mem_cons_of_mem _ hw, hs, hpw⟩
      | none =>
          rw [show hcuStep elemTy m v = mapUpd m (getLanguageID v) (copyItem elemTy v).1 by
            simp [hcuStep, he]] at hp
          rcases ih _ hp with h | ⟨w, hw, hs, hpw⟩
          · rcases mem_mapUpd h with h0 | h0
            · left; exact h0
            · right; exact ⟨v, List.mem_cons_self v rest, he, h0⟩
          · right; exact ⟨w, List.mem_cons_of_mem _ hw, hs, hpw⟩

/-- C10: during a Contents update-merge, a failing element copy is swallowed:
handleContentUpdate reports success unconditionally; when every update item
carrying the language key of the failing item fails to copy, the existing
element with that key is kept in the merged result; and every element of the
merged result is either an existing element or the successful fresh copy of
some update item, so a failing incoming element contributes nothing. -/
theorem origin_c10_failed_copy_silently_dropped (elemTy : Ty)
    (existing updates : List Val) (u x : Val)
    (_hu : u ∈ updates)
    (_hfail : (copyItem elemTy u).2.isSome = true)
    (hkey : ∀ v ∈ updates, getLanguageID v = getLanguageID u →
      (copyItem elemTy v).2.isSome = true)
    (hexnd : (existing.map getLanguageID).Nodup)
    (hx : x ∈ existing) (hxk : getLanguageID x = getLanguageID u) :
    (handleContentUpdate elemTy existing updates).2 = none ∧
    x ∈ (handleContentUpdate elemTy existing updates).1 ∧
    (∀ y ∈ (handleContentUpdate elemTy existing updates).1,
      y ∈ existing ∨ ∃ v ∈ updates, (copyItem elemTy v).2 = none ∧
        y = (copyItem elemTy v).1) := by
  refine ⟨rfl, ?_, ?_⟩
  · have h0 : mapGet (insAll getLanguageID [] existing) (getLanguageID u) = some x := by
      rw [← hxk]
      exact mapGet_insAll_self getLanguageID _ hexnd hx
    have h1 : mapGet (updates.foldl (hcuStep elemTy) (insAll getLanguageID [] existing))
        (getLanguageID u) = some x := by
      rw [hcu_fold_get_unchanged elemTy updates _ _ hkey]
      exact h0
    exact List.mem_map.mpr ⟨(getLanguageID u, x), mem_of_mapGet h1, rfl⟩
  · intro y hy
    rcases List.mem_map.mp hy with ⟨p, hp, rfl⟩
    rcases hcu_fold_mem elemTy updates _ p hp with h | ⟨v, hv, hs, hpw⟩
    · rcases mem_insAll h with h0 | ⟨z, hz, rfl⟩
      · cases h0
      · left; exact hz
    · right
      refine ⟨v, hv, hs, ?_⟩
      rw [hpw]

theorem origin_c10_witness :
    (handleContentUpdate
        (Ty.tstruct "C" (FieldTys.fcons "LanguageID" Ty.tstr
          (FieldTys.fcons "Content" Ty.tstr FieldTys.fnil)))
        [Val.vstruct "C" (FieldTys.fcons "LanguageID" Ty.tstr
            (FieldTys.fcons "Content" Ty.tstr FieldTys.fnil))
          [("LanguageID", Val.vstr "ar"), ("Content", Val.vstr "old")]]
        [Val.vstruct "U" (FieldTys.fcons "LanguageID" Ty.tstr
            (FieldTys.fcons "Content" Ty.tbool FieldTys.fnil))
          [("LanguageID", Val.vstr "ar"), ("Content", Val.vbool true)]]).2 = none ∧
    Val.vstruct "C" (FieldTys.fcons "LanguageID" Ty.tstr
        (FieldTys.fcons "Content" Ty.tstr FieldTys.fnil))
      [("LanguageID", Val.vstr "ar"), ("Content", Val.vstr "old")] ∈
      (handleContentUpdate
        (Ty.tstruct "C" (FieldTys.fcons "LanguageID" Ty.tstr
          (FieldTys.fcons "Content" Ty.tstr FieldTys.fnil)))
        [Val.vstruct "C" (FieldTys.fcons "LanguageID" Ty.tstr
            (FieldTys.fcons "Content" Ty.tstr FieldTys.fnil))
          [("LanguageID", Val.vstr "ar"), ("Content", Val.vstr "old")]]
        [Val.vstruct "U" (FieldTys.fcons "LanguageID" Ty.tstr
            (FieldTys.fcons "Content" Ty.tbool FieldTys.fnil))
          [("LanguageID", Val.vstr "ar"), ("Content", Val.vbool true)]]).1 :=
  ⟨(origin_c10_failed_copy_silently_dropped
      (Ty.tstruct "C" (FieldTys.fcons "LanguageID" Ty.tstr
        (FieldTys.fcons "Content" Ty.tstr FieldTys.fnil)))
      [Val.vstruct "C" (FieldTys.fcons "LanguageID" Ty.tstr
          (FieldTys.fcons "Content" Ty.tstr FieldTys.fnil))
        [("LanguageID", Val.vstr "ar"), ("Content", Val.vstr "old")]]
      [Val.vstruct "U" (FieldTys.fcons "LanguageID" Ty.tstr
          (FieldTys.fcons "Content" Ty.tbool FieldTys.fnil))
        [("LanguageID", Val.vstr "ar"), ("Content", Val.vbool true)]]
      (Val.vstruct "U" (FieldTys.fcons "LanguageID" Ty.tstr
          (FieldTys.fcons "Content" Ty.tbool FieldTys.fnil))
        [("LanguageID", Val.vstr "ar"), ("Content", Val.vbool true)])
      (Val.vstruct "C" (FieldTys.fcons "LanguageID" Ty.tstr
          (FieldTys.fcons "Content" Ty.tstr FieldTys.fnil))
        [("LanguageID", Val.vstr "ar"), ("Content", Val.vstr "old")])
      (by simp) rfl
      (by
        intro v hv hk
        rw [List.mem_singleton] at hv
        subst hv
        rfl)
      (by decide) (by simp) rfl).1,
   (origin_c10_failed_copy_silently_dropped
      (Ty.tstruct "C" (FieldTys.fcons "LanguageID" Ty.tstr
        (FieldTys.fcons "Content" Ty.tstr FieldTys.fnil)))
      [Val.vstruct "C" (FieldTys.fcons "LanguageID" Ty.tstr
          (FieldTys.fcons "Content" Ty.tstr FieldTys.fnil))
        [("LanguageID", Val.vstr "ar"), ("Content", Val.vstr "old")]]
      [Val.vstruct "U" (FieldTys.fcons "LanguageID" Ty.tstr
          (FieldTys.fcons "Content" Ty.tbool FieldTys.fnil))
        [("LanguageID", Val.vstr "ar"), ("Content", Val.vbool true)]]
      (Val.vstruct "U" (FieldTys.fcons "LanguageID" Ty.tstr
          (FieldTys.fcons "Content" Ty.tbool FieldTys.fnil))
        [("LanguageID", Val.vstr "ar"), ("Content", Val.vbool true)])
      (Val.vstruct "C" (FieldTys.fcons "LanguageID" Ty.tstr
          (FieldTys.fcons "Content" Ty.tstr FieldTys.fnil))
        [("LanguageID", Val.vstr "ar"), ("Content", Val.vstr "old")])
      (by simp) rfl
      (by
        intro v hv hk
        rw [List.mem_singleton] at hv
        subst hv
        rfl)
      (by decide) (by simp) rfl).2.1⟩

/-- C3: evaluation of GenerateFilterParameters at the Blog model of the
example application.  The Contents field is a content slice (premise of the
claim), its non-identifier inner field Content is hoisted to the top level and
its identifier-suffixed inner field BlogID is dropped, but the language
identifier LanguageID does not appear anywhere in the generated shape: the
embedded-base branch compares the embedded field's name (ContentModel) with
the literal LanguageID, which never matches, contradicting both the claim and
the source comment stating that only LanguageID is extracted from embedded
base fields. -/
theorem origin_c3_filter_shape_lacks_language_id :
    shouldFlatten (GTy.gslice gBlogContentTy) = true ∧
    (generateFilterParameters gBlogTy).map OField.name = ["Content", "Owner", "IsPublished"] ∧
    "LanguageID" ∉ (generateFilterParameters gBlogTy).map OField.name := by
  decide

theorem extractLoop_mem (fs : List (String × Bool × GTy)) :
    ∀ (added : List String) (f : OField), f ∈ (extractLoop fs added).1 →
      f.name = "LanguageID" ∧ ∃ q ∈ fs, q.1 = "LanguageID" ∧ f.ty = q.2.2 := by
  induction fs with
  | nil => intro added f hf; simp [extractLoop] at hf
  | cons p rest ih =>
      obtain ⟨n, anon, t⟩ := p
      intro added f hf
      by_cases h : n = "LanguageID" ∧ n ∉ added
      · simp only [extractLoop, if_pos h] at hf
        rcases List.mem_cons.mp hf with rfl | hf'
        · exact ⟨h.1, ⟨(n, anon, t), List.mem_cons_self _ _, h.1, rfl⟩⟩
        · obtain ⟨hname, q, hq, hq1, hq2⟩ := ih _ f hf'
          exact ⟨hname, q, List.mem_cons_of_mem _ hq, hq1, hq2⟩
      · simp only [extractLoop, if_neg h] at hf
        obtain ⟨hname, q, hq, hq1, hq2⟩ := ih _ f hf
        exact ⟨hname, q, List.mem_cons_of_mem _ hq, hq1, hq2⟩

theorem extractBase_mem {t : GTy} {added : List String} {f : OField}
    (hf : f ∈ (extractBaseEmbeddedFields t added).1) :
    f.name = "LanguageID" ∧ ∃ nm bfs, t = GTy.gstruct nm bfs ∧
      ∃ q ∈ bfs, q.1 = "LanguageID" ∧ f.ty = q.2.2 := by
  cases t with
  | gstruct nm bfs =>
      obtain ⟨hname, q, hq, hq1, hq2⟩ := extractLoop_mem bfs added f hf
      exact ⟨hname, nm, bfs, rfl, q, hq, hq1, hq2⟩
  | prim nm => simp [extractBaseEmbeddedFields] at hf
  | gptr u => simp [extractBaseEmbeddedFields] at hf
  | gslice u => simp [extractBaseEmbeddedFields] at hf

theorem innerLoop_provenance (efs : List (String × Bool × GTy)) :
    ∀ (added : List String) (fk : Bool) (f : OField), f ∈ (innerLoop efs added fk).1 →
      (∃ p ∈ efs, ¬(p.2.1 = true ∧ isBaseField p.1 p.2.2 = true) ∧
        (fk = true → strEndsWith p.1 "ID" = false) ∧ f.name = p.1 ∧ f.ty = p.2.2) ∨
      (f.name = "LanguageID" ∧ ∃ p ∈ efs, p.2.1 = true ∧ isBaseField p.1 p.2.2 = true ∧
        ∃ nm bfs, p.2.2 = GTy.gstruct nm bfs ∧
          ∃ q ∈ bfs, q.1 = "LanguageID" ∧ f.ty = q.2.2) := by
  induction efs with
  | nil => intro added fk f hf; simp [innerLoop] at hf
  | cons p rest ih =>
      obtain ⟨n, anon, t⟩ := p
      intro added fk f hf
      by_cases h1 : anon = true ∧ isBaseField n t = true
      · simp only [innerLoop, if_pos h1, List.mem_append] at hf
        rcases hf with hf | hf
        · obtain ⟨hname, nm, bfs, ht, q, hq, hq1, hq2⟩ := extractBase_mem hf
          right
          exact ⟨hname, (n, anon, t), List.mem_cons_self _ _, h1.1, h1.2,
            nm, bfs, ht, q, hq, hq1, hq2⟩
        · rcases ih _ fk f hf with ⟨p, hp, hrest⟩ | ⟨hname, p, hp, hrest⟩
          · left; exact ⟨p, List.mem_cons_of_mem _ hp, hrest⟩
          · right; exact ⟨hname, p, List.mem_cons_of_mem _ hp, hrest⟩
      · by_cases h2 : n ∈ added
        · simp only [innerLoop, if_neg h1, if_pos h2] at hf
          rcases ih _ fk f hf with ⟨p, hp, hrest⟩ | ⟨hname, p, hp, hrest⟩
          · left; exact ⟨p, List.mem_cons_of_mem _ hp, hrest⟩
          · right; exact ⟨hname, p, List.mem_cons_of_mem _ hp, hrest⟩
        · by_cases h3 : fk = true ∧ strEndsWith n "ID" = true
          · simp only [innerLoop, if_neg h1, if_neg h2, if_pos h3] at hf
            rcases ih _ fk f hf with ⟨p, hp, hrest⟩ | ⟨hname, p, hp, hrest⟩
            · left; exact ⟨p, List.mem_cons_of_mem _ hp, hrest⟩
            · right; exact ⟨hname, p, List.mem_cons_of_mem _ hp, hrest⟩
          · simp only [innerLoop, if_neg h1, if_neg h2, if_neg h3] at hf
            rcases List.mem_cons.mp hf with rfl | hf'
            · left
              refine ⟨(n, anon, t), List.mem_cons_self _ _, h1, ?_, rfl, rfl⟩
              intro hfk
              by_contra hid
              exact h3 ⟨hfk, by simpa using hid⟩
            · rcases ih _ fk f hf' with ⟨p, hp, hrest⟩ | ⟨hname, p, hp, hrest⟩
              · left; exact ⟨p, List.mem_cons_of_mem _ hp, hrest⟩
              · right; exact ⟨hname, p, List.mem_cons_of_mem _ hp, hrest⟩

theorem updateLoop_top_optional (fs : List (String × Bool × GTy)) :
    ∀ (added : List String) (f : OField), f ∈ (updateLoop fs added).1 →
      (∃ u, f.ty = GTy.gptr u) ∨ f.name = "LanguageID" := by
  induction fs with
  | nil => intro added f hf; simp [updateLoop] at hf
  | cons p rest ih =>
      obtain ⟨n, anon, t⟩ := p
      intro added f hf
      by_cases h1 : anon = true ∨ isBaseField n t = true
      · by_cases h2 : anon = true ∧ isBaseField n t = true
        · simp only [updateLoop, if_pos h1, if_pos h2, List.mem_append] at hf
          rcases hf with hf | hf
          · right; exact (extractBase_mem hf).1
          · exact ih _ f hf
        · simp only [updateLoop, if_pos h1, if_neg h2] at hf
          exact ih _ f hf
      · simp only [updateLoop, if_neg h1] at hf
        cases t with
        | gslice et =>
            cases et with
            | gstruct sn sfs =>
                rcases List.mem_cons.mp hf with rfl | hf'
                · left; exact ⟨_, rfl⟩
                · exact ih _ f hf'
            | prim nm => exact ih _ f hf
            | gptr u => exact ih _ f hf
            | gslice u => exact ih _ f hf
        | prim nm =>
            rcases List.mem_cons.mp hf with rfl | hf'
            · left; exact ⟨_, rfl⟩
            · exact ih _ f hf'
        | gptr u =>
            rcases List.mem_cons.mp hf with rfl | hf'
            · left; exact ⟨_, rfl⟩
            · exact ih _ f hf'
        | gstruct nm sfs =>
            rcases List.mem_cons.mp hf with rfl | hf'
            · left; exact ⟨_, rfl⟩
            · exact ih _ f hf'

/-- C6, counterexample: in the update shape generated for the Blog model the
fields of the nested content shape keep their plain types (LanguageID and
Content are non-pointer strings), so not every field of the generated
update-parameter shape is a nilable pointer type. -/
theorem origin_c6_counterexample :
    specUpdateShapeAllOptional (generateUpdateParameters gBlogTy) = false ∧
    generateUpdateParameters gBlogTy =
      [⟨"Contents", GTy.gptr (GTy.gslice (GTy.gstruct ""
          [("LanguageID", false, GTy.prim "string"),
           ("Content", false, GTy.prim "string")]))⟩,
       ⟨"Owner", GTy.gptr (GTy.prim "string")⟩,
       ⟨"IsPublished", GTy.gptr (GTy.prim "bool")⟩] :=
  ⟨by decide, rfl⟩

/-- C6, amended: every top-level field of the generated update shape is a
pointer type except the LanguageID fields re-included from embedded bases;
and every field of the nested content shape keeps a source-declared type
verbatim (the declared type of the matching element field, or of the
LanguageID field of an embedded base), so the nested fields are not made
optional. -/
theorem origin_c6_update_shape_optionality
    (fs efs : List (String × Bool × GTy)) (added added2 : List String) (fk : Bool) :
    (∀ f ∈ (updateLoop fs added).1,
      (∃ u, f.ty = GTy.gptr u) ∨ f.name = "LanguageID") ∧
    (∀ f ∈ (innerLoop efs added2 fk).1,
      (∃ p ∈ efs, f.name = p.1 ∧ f.ty = p.2.2) ∨
      (f.name = "LanguageID" ∧ ∃ p ∈ efs, ∃ nm bfs, p.2.2 = GTy.gstruct nm bfs ∧
        ∃ q ∈ bfs, q.1 = "LanguageID" ∧ f.ty = q.2.2)) :=
  ⟨fun f hf => updateLoop_top_optional fs added f hf,
   fun f hf => by
    rcases innerLoop_provenance efs added2 fk f hf with
      ⟨p, hp, _, _, hn, ht⟩ | ⟨hn, p, hp, _, _, nm, bfs, hb, q, hq, hq1, hq2⟩
    · exact Or.inl ⟨p, hp, hn, ht⟩
    · exact Or.inr ⟨hn, p, hp, nm, bfs, hb, q, hq, hq1, hq2⟩⟩

theorem origin_c6_witness :
    ((∃ u, (OField.mk "Owner" (GTy.gptr (GTy.prim "string"))).ty = GTy.gptr u) ∨
      (OField.mk "Owner" (GTy.gptr (GTy.prim "string"))).name = "LanguageID") ∧
    ((∃ p ∈ [("ContentModel", true, gContentModelTy),
              ("Content", false, GTy.prim "string"),
              ("BlogID", false, GTy.prim "uint")],
        (OField.mk "Content" (GTy.prim "string")).name = p.1 ∧
        (OField.mk "Content" (GTy.prim "string")).ty = p.2.2) ∨
      ((OField.mk "Content" (GTy.prim "string")).name = "LanguageID" ∧
        ∃ p ∈ [("ContentModel", true, gContentModelTy),
               ("Content", false, GTy.prim "string"),
               ("BlogID", false, GTy.prim "uint")],
          ∃ nm bfs, p.2.2 = GTy.gstruct nm bfs ∧
            ∃ q ∈ bfs, q.1 = "LanguageID" ∧
              (OField.mk "Content" (GTy.prim "string")).ty = q.2.2)) :=
  ⟨(origin_c6_update_shape_optionality
      [("Model", true, gModelTy),
       ("Contents", false, GTy.gslice gBlogContentTy),
       ("Owner", false, GTy.prim "string"),
       ("IsPublished", false, GTy.prim "bool")]
      [("ContentModel", true, gContentModelTy),
       ("Content", false, GTy.prim "string"),
       ("BlogID", false, GTy.prim "uint")]
      [] [] true).1 (OField.mk "Owner" (GTy.gptr (GTy.prim "string")))
      (List.mem_cons_of_mem _ (List.mem_cons_self _ _)),
   (origin_c6_update_shape_optionality
      [("Model", true, gModelTy),
       ("Contents", false, GTy.gslice gBlogContentTy),
       ("Owner", false, GTy.prim "string"),
       ("IsPublished", false, GTy.prim "bool")]
      [("ContentModel", true, gContentModelTy),
       ("Content", false, GTy.prim "string"),
       ("BlogID", false, GTy.prim "uint")]
      [] [] true).2 (OField.mk "Content" (GTy.prim "string"))
      (List.mem_cons_of_mem _ (List.mem_cons_self _ _))⟩

theorem extractLoop_count_of_added (fs : List (String × Bool × GTy)) :
    ∀ (added : List String), "LanguageID" ∈ added →
      (((extractLoop fs added).1.map OField.name).count "LanguageID" = 0) ∧
      "LanguageID" ∈ (extractLoop fs added).2 := by
  induction fs with
  | nil => intro added h; exact ⟨rfl, h⟩
  | cons p rest ih =>
      obtain ⟨n, anon, t⟩ := p
      intro added h
      by_cases hc : n = "LanguageID" ∧ n ∉ added
      · obtain ⟨rfl, hnin⟩ := hc
        exact absurd h hnin
      · simp only [extractLoop, if_neg hc]
        exact ih added h

theorem extractLoop_cons_eq (n : String) (anon : Bool) (t : GTy)
    (rest : List (String × Bool × GTy)) (added : List String) :
    extractLoop ((n, anon, t) :: rest) added =
      if n = "LanguageID" ∧ n ∉ added then
        (⟨n, t⟩ :: (extractLoop rest (n :: added)).1, (extractLoop rest (n :: added)).2)
      else extractLoop rest added := rfl

theorem innerLoop_cons_eq (n : String) (anon : Bool) (t : GTy)
    (rest : List (String × Bool × GTy)) (added : List String) (fk : Bool) :
    innerLoop ((n, anon, t) :: rest) added fk =
      if anon = true ∧ isBaseField n t = true then
        ((extractBaseEmbeddedFields t added).1 ++
          (innerLoop rest (extractBaseEmbeddedFields t added).2 fk).1,
         (innerLoop rest (extractBaseEmbeddedFields t added).2 fk).2)
      else if n ∈ added then innerLoop rest added fk
      else if fk = true ∧ strEndsWith n "ID" = true then innerLoop rest added fk
      else (⟨n, t⟩ :: (innerLoop rest (n :: added) fk).1,
            (innerLoop rest (n :: added) fk).2) := rfl

theorem extractLoop_count_of_mem (fs : List (String × Bool × GTy)) :
    ∀ (added : List String), "LanguageID" ∉ added →
      (∃ q ∈ fs, q.1 = "LanguageID") →
      (((extractLoop fs added).1.map OField.name).count "LanguageID" = 1) ∧
      "LanguageID" ∈ (extractLoop fs added).2 := by
  induction fs with
  | nil =>
      intro added _ hex
      simp at hex
  | cons p rest ih =>
      obtain ⟨n, anon, t⟩ := p
      intro added h hex
      by_cases hn : n = "LanguageID"
      · rw [extractLoop_cons_eq, if_pos (And.intro hn (hn ▸ h))]
        have h1 := extractLoop_count_of_added rest ("LanguageID" :: added)
          (List.mem_cons_self _ _)
        constructor
        · simp [List.count_cons, hn, h1.1]
        · simpa [hn] using h1.2
      · have hc : ¬(n = "LanguageID" ∧ n ∉ added) := fun hcc => hn hcc.1
        rw [extractLoop_cons_eq, if_neg hc]
        rcases hex with ⟨q, hq, hq1⟩
        rcases List.mem_cons.mp hq with rfl | hq'
        · exact absurd hq1 hn
        · exact ih added h ⟨q, hq', hq1⟩

theorem extractLoop_count_of_not_mem (fs : List (String × Bool × GTy)) :
    ∀ (added : List String), "LanguageID" ∉ added →
      (∀ q ∈ fs, q.1 ≠ "LanguageID") →
      (((extractLoop fs added).1.map OField.name).count "LanguageID" = 0) ∧
      "LanguageID" ∉ (extractLoop fs added).2 := by
  induction fs with
  | nil => intro added h _; exact ⟨rfl, h⟩
  | cons p rest ih =>
      obtain ⟨n, anon, t⟩ := p
      intro added h hall
      have hn : n ≠ "LanguageID" := hall (n, anon, t) (List.mem_cons_self _ _)
      have hc : ¬(n = "LanguageID" ∧ n ∉ added) := fun hcc => hn hcc.1
      simp only [extractLoop, if_neg hc]
      exact ih added h (fun q hq => hall q (List.mem_cons_of_mem _ hq))

theorem extractBase_count_of_added {t : GTy} {added : List String}
    (h : "LanguageID" ∈ added) :
    (((extractBaseEmbeddedFields t added).1.map OField.name).count "LanguageID" = 0) ∧
    "LanguageID" ∈ (extractBaseEmbeddedFields t added).2 := by
  cases t with
  | gstruct nm bfs => exact extractLoop_count_of_added bfs added h
  | prim nm => exact ⟨rfl, h⟩
  | gptr u => exact ⟨rfl, h⟩
  | gslice u => exact ⟨rfl, h⟩

theorem innerLoop_count_of_added (efs : List (String × Bool × GTy)) :
    ∀ (added : List String), "LanguageID" ∈ added →
      (((innerLoop efs added true).1.map OField.name).count "LanguageID" = 0) ∧
      "LanguageID" ∈ (innerLoop efs added true).2 := by
  induction efs with
  | nil => intro added h; exact ⟨rfl, h⟩
  | cons p rest ih =>
      obtain ⟨n, anon, t⟩ := p
      intro added h
      by_cases h1 : anon = true ∧ isBaseField n t = true
      · rw [innerLoop_cons_eq, if_pos h1]
        have he := @extractBase_count_of_added t added h
        have hr := ih _ he.2
        constructor
        · simp [List.count_append, he.1, hr.1]
        · exact hr.2
      · by_cases h2 : n ∈ added
        · rw [innerLoop_cons_eq, if_neg h1, if_pos h2]
          exact ih added h
        · by_cases h3 : (true : Bool) = true ∧ strEndsWith n "ID" = true
          · rw [innerLoop_cons_eq, if_neg h1, if_neg h2, if_pos h3]
            exact ih added h
          · rw [innerLoop_cons_eq, if_neg h1, if_neg h2, if_neg h3]
            have hn : n ≠ "LanguageID" := fun hc => h2 (hc ▸ h)
            have hr := ih (n :: added) (List.mem_cons_of_mem _ h)
            constructor
            · simp [List.count_cons, hr.1, hn]
            · exact hr.2

theorem innerLoop_count_of_embed (efs : List (String × Bool × GTy)) :
    ∀ (added : List String), "LanguageID" ∉ added →
      (∃ p ∈ efs, p.2.1 = true ∧ isBaseField p.1 p.2.2 = true ∧
        ∃ nm bfs, p.2.2 = GTy.gstruct nm bfs ∧ ∃ q ∈ bfs, q.1 = "LanguageID") →
      ((innerLoop efs added true).1.map OField.name).count "LanguageID" = 1 := by
  induction efs with
  | nil =>
      intro added _ hex
      simp at hex
  | cons p rest ih =>
      obtain ⟨n, anon, t⟩ := p
      intro added h hex
      by_cases h1 : anon = true ∧ isBaseField n t = true
      · rw [innerLoop_cons_eq, if_pos h1]
        by_cases hw : ∃ nm bfs, t = GTy.gstruct nm bfs ∧ ∃ q ∈ bfs, q.1 = "LanguageID"
        · obtain ⟨nm, bfs, rfl, q, hq, hq1⟩ := hw
          have he := extractLoop_count_of_mem bfs added h ⟨q, hq, hq1⟩
          have he' : (((extractBaseEmbeddedFields (GTy.gstruct nm bfs) added).1.map
              OField.name).count "LanguageID" = 1) ∧
              "LanguageID" ∈ (extractBaseEmbeddedFields (GTy.gstruct nm bfs) added).2 := he
          have hr := innerLoop_count_of_added rest _ he'.2
          simp [List.count_append, he'.1, hr.1]
        · have hez : (((extractBaseEmbeddedFields t added).1.map OField.name).count
              "LanguageID" = 0) ∧ "LanguageID" ∉ (extractBaseEmbeddedFields t added).2 := by
            cases t with
            | gstruct nm bfs =>
                refine extractLoop_count_of_not_mem bfs added h ?_
                intro q hq hq1
                exact hw ⟨nm, bfs, rfl, q, hq, hq1⟩
            | prim nm => exact ⟨rfl, h⟩
            | gptr u => exact ⟨rfl, h⟩
            | gslice u => exact ⟨rfl, h⟩
          have hex' : ∃ p ∈ rest, p.2.1 = true ∧ isBaseField p.1 p.2.2 = true ∧
              ∃ nm bfs, p.2.2 = GTy.gstruct nm bfs ∧ ∃ q ∈ bfs, q.1 = "LanguageID" := by
            rcases hex with ⟨p, hp, hp1, hp2, nm, bfs, hpt, hq⟩
            rcases List.mem_cons.mp hp with rfl | hp'
            · exact absurd ⟨nm, bfs, hpt, hq⟩ hw
            · exact ⟨p, hp', hp1, hp2, nm, bfs, hpt, hq⟩
          have hr := ih _ hez.2 hex'
          simp [List.count_append, hez.1, hr]
      · have hex' : ∃ p ∈ rest, p.2.1 = true ∧ isBaseField p.1 p.2.2 = true ∧
            ∃ nm bfs, p.2.2 = GTy.gstruct nm bfs ∧ ∃ q ∈ bfs, q.1 = "LanguageID" := by
          rcases hex with ⟨p, hp, hp1, hp2, hrest⟩
          rcases List.mem_cons.mp hp with rfl | hp'
          · exact absurd ⟨hp1, hp2⟩ h1
          · exact ⟨p, hp', hp1, hp2, hrest⟩
        by_cases h2 : n ∈ added
        · rw [innerLoop_cons_eq, if_neg h1, if_pos h2]
          exact ih added h hex'
        · by_cases h3 : (true : Bool) = true ∧ strEndsWith n "ID" = true
          · rw [innerLoop_cons_eq, if_neg h1, if_neg h2, if_pos h3]
            exact ih added h hex'
          · rw [innerLoop_cons_eq, if_neg h1, if_neg h2, if_neg h3]
            have hn : n ≠ "LanguageID" := by
              intro hc
              subst hc
              exact h3 ⟨rfl, by decide⟩
            have hr := ih (n :: added)
              (by
                intro hmem
                rcases List.mem_cons.mp hmem with hL | hL
                · exact hn hL.symm
                · exact h hL) hex'
            simp [List.count_cons, hr, hn]

theorem createLoop_provenance (fs : List (String × Bool × GTy)) :
    ∀ (added : List String) (f : OField), f ∈ (createLoop fs added).1 →
      f.name = "LanguageID" ∨
      ∃ p ∈ fs, p.2.1 = false ∧ isBaseField p.1 p.2.2 = false ∧ f.name = p.1 := by
  induction fs with
  | nil => intro added f hf; simp [createLoop] at hf
  | cons p rest ih =>
      obtain ⟨n, anon, t⟩ := p
      intro added f hf
      by_cases h1 : anon = true ∨ isBaseField n t = true
      · by_cases h2 : anon = true ∧ isBaseField n t = true
        · simp only [createLoop, if_pos h1, if_pos h2, List.mem_append] at hf
          rcases hf with hf | hf
          · left; exact (extractBase_mem hf).1
          · rcases ih _ f hf with h | ⟨p, hp, hrest⟩
            · left; exact h
            · right; exact ⟨p, List.mem_cons_of_mem _ hp, hrest⟩
        · simp only [createLoop, if_pos h1, if_neg h2] at hf
          rcases ih _ f hf with h | ⟨p, hp, hrest⟩
          · left; exact h
          · right; exact ⟨p, List.mem_cons_of_mem _ hp, hrest⟩
      · have hfa : anon = false := by
          rcases not_or.mp h1 with ⟨ha, _⟩
          cases anon
          · rfl
          · exact absurd rfl ha
        have hfb : isBaseField n t = false := by
          rcases not_or.mp h1 with ⟨_, hb⟩
          cases hb' : isBaseField n t
          · rfl
          · exact absurd hb' hb
        simp only [createLoop, if_neg h1] at hf
        cases t with
        | gslice et =>
            cases et with
            | gstruct sn sfs =>
                rcases List.mem_cons.mp hf with rfl | hf'
                · right; exact ⟨(n, anon, GTy.gslice (GTy.gstruct sn sfs)),
                    List.mem_cons_self _ _, hfa, hfb, rfl⟩
                · rcases ih _ f hf' with h | ⟨p, hp, hrest⟩
                  · left; exact h
                  · right; exact ⟨p, List.mem_cons_of_mem _ hp, hrest⟩
            | prim nm =>
                rcases ih _ f hf with h | ⟨p, hp, hrest⟩
                · left; exact h
                · right; exact ⟨p, List.mem_cons_of_mem _ hp, hrest⟩
            | gptr u =>
                rcases ih _ f hf with h | ⟨p, hp, hrest⟩
                · left; exact h
                · right; exact ⟨p, List.mem_cons_of_mem _ hp, hrest⟩
            | gslice u =>
                rcases ih _ f hf with h | ⟨p, hp, hrest⟩
                · left; exact h
                · right; exact ⟨p, List.mem_cons_of_mem _ hp, hrest⟩
        | prim nm =>
            rcases List.mem_cons.mp hf with rfl | hf'
            · right; exact ⟨(n, anon, GTy.prim nm), List.mem_cons_self _ _, hfa, hfb, rfl⟩
            · rcases ih _ f hf' with h | ⟨p, hp, hrest⟩
              · left; exact h
              · right; exact ⟨p, List.mem_cons_of_mem _ hp, hrest⟩
        | gptr u =>
            rcases List.mem_cons.mp hf with rfl | hf'
            · right; exact ⟨(n, anon, GTy.gptr u), List.mem_cons_self _ _, hfa, hfb, rfl⟩
            · rcases ih _ f hf' with h | ⟨p, hp, hrest⟩
              · left; exact h
              · right; exact ⟨p, List.mem_cons_of_mem _ hp, hrest⟩
        | gstruct nm sfs =>
            rcases List.mem_cons.mp hf with rfl | hf'
            · right; exact ⟨(n, anon, GTy.gstruct nm sfs), List.mem_cons_self _ _,
                hfa, hfb, rfl⟩
            · rcases ih _ f hf' with h | ⟨p, hp, hrest⟩
              · left; exact h
              · right; exact ⟨p, List.mem_cons_of_mem _ hp, hrest⟩

/-- C7: every field of the generated create shape is either the re-included
LanguageID or named after a non-anonymous, non-base model field, so the fields
of recognized base embeddings (identity and timestamp fields) are excluded; in
a nested content shape every field is LanguageID or comes from a non-base
element field; and when the content element type embeds a base carrying a
LanguageID member, and LanguageID has not been emitted yet, the nested content
shape contains LanguageID exactly once. -/
theorem origin_c7_create_excludes_base_fields
    (fs efs : List (String × Bool × GTy)) (added added2 : List String)
    (hL : "LanguageID" ∉ added2)
    (hembed : ∃ p ∈ efs, p.2.1 = true ∧ isBaseField p.1 p.2.2 = true ∧
      ∃ nm bfs, p.2.2 = GTy.gstruct nm bfs ∧ ∃ q ∈ bfs, q.1 = "LanguageID") :
    (∀ f ∈ (createLoop fs added).1,
      f.name = "LanguageID" ∨
      ∃ p ∈ fs, p.2.1 = false ∧ isBaseField p.1 p.2.2 = false ∧ f.name = p.1) ∧
    (∀ f ∈ (innerLoop efs added2 true).1,
      f.name = "LanguageID" ∨
      ∃ p ∈ efs, ¬(p.2.1 = true ∧ isBaseField p.1 p.2.2 = true) ∧ f.name = p.1) ∧
    ((innerLoop efs added2 true).1.map OField.name).count "LanguageID" = 1 :=
  ⟨fun f hf => createLoop_provenance fs added f hf,
   fun f hf => by
     rcases innerLoop_provenance efs added2 true f hf with
       ⟨p, hp, hnb, _, hn, _⟩ | ⟨hn, _⟩
     · exact Or.inr ⟨p, hp, hnb, hn⟩
     · exact Or.inl hn,
   innerLoop_count_of_embed efs added2 hL hembed⟩

theorem origin_c7_witness :
    ("LanguageID" ∉ ([] : List String)) ∧
    ((innerLoop [("ContentModel", true, gContentModelTy),
        ("Content", false, GTy.prim "string"),
        ("BlogID", false, GTy.prim "uint")] [] true).1.map OField.name).count
      "LanguageID" = 1 ∧
    ((OField.mk "Owner" (GTy.prim "string")).name = "LanguageID" ∨
      ∃ p ∈ [("Model", true, gModelTy),
             ("Contents", false, GTy.gslice gBlogContentTy),
             ("Owner", false, GTy.prim "string"),
             ("IsPublished", false, GTy.prim "bool")],
        p.2.1 = false ∧ isBaseField p.1 p.2.2 = false ∧
        (OField.mk "Owner" (GTy.prim "string")).name = p.1) := by
  have h := origin_c7_create_excludes_base_fields
    [("Model", true, gModelTy), ("Contents", false, GTy.gslice gBlogContentTy),
     ("Owner", false, GTy.prim "string"), ("IsPublished", false, GTy.prim "bool")]
    [("ContentModel", true, gContentModelTy), ("Content", false, GTy.prim "string"),
     ("BlogID", false, GTy.prim "uint")]
    [] [] (by simp)
    ⟨("ContentModel", true, gContentModelTy), List.mem_cons_self _ _, rfl, rfl,
      "ContentModel",
      [("LanguageID", false, GTy.prim "string"), ("Language", false, gLanguageTy),
       ("CreatedAt", false, GTy.prim "Time"), ("UpdatedAt", false, GTy.prim "Time")],
      rfl, ("LanguageID", false, GTy.prim "string"), List.mem_cons_self _ _, rfl⟩
  exact ⟨by simp, h.2.2,
    h.1 (OField.mk "Owner" (GTy.prim "string"))
      (List.mem_cons_of_mem _ (List.mem_cons_self _ _))⟩

end Origin
